import Mathlib

/-!
# Event webhook client of the SendGrid SDK (sdk/event_webhook.go)

A shallow embedding of the six event-webhook operations and of the part of
Go's encoding/json that they rely on.

* Go strings are sequences of bytes (GoString), valid UTF-8 or not. String
  literals of the source are written as Lean string literals and stand for
  their UTF-8 encoding. The characters of JSON texts and of object keys, which
  the decoder reads through utf8.DecodeRune, are Lean characters.
* Go's int is modelled as Int; status codes are only compared, never
  computed with.
* The HTTP layer behind Client.Get and Client.Post is a parameter: a function
  giving the reply to a call, possibly depending on the calls made before.
  Every operation threads the list of calls issued so far, so that the number
  and the contents of the transport calls are part of its result.
* The context argument of the Go functions is only forwarded to the HTTP
  layer and is subsumed by that parameter.
* encoding/json is modelled at two levels: JSON texts (scanner and string
  quoting, as lists of characters) and JSON values (the struct encoder and
  decoder driven by the field tags). The call json.Unmarshal(data, &body) is
  the pair of the body afterwards and the error returned, because the decoder
  goes on after a type error and reports the first one at the end.
-/

namespace Sendgrid

/-! ## Go strings -/

/-- A byte. -/
abbrev Byte := Fin 256

/-- Go strings: arbitrary sequences of bytes, valid UTF-8 or not. -/
abbrev GoString := List Byte

/-- The byte with the given value (taken modulo 256). -/
def byte (n : Nat) : Byte := ⟨n % 256, Nat.mod_lt _ (by decide)⟩

/-- UTF-8 encoding of one character (utf8.EncodeRune). -/
def encodeRune (c : Char) : GoString :=
  if c.toNat < 0x80 then [byte c.toNat]
  else if c.toNat < 0x800 then [byte (0xC0 + c.toNat / 64), byte (0x80 + c.toNat % 64)]
  else if c.toNat < 0x10000 then
    [byte (0xE0 + c.toNat / 4096), byte (0x80 + c.toNat / 64 % 64), byte (0x80 + c.toNat % 64)]
  else
    [byte (0xF0 + c.toNat / 262144), byte (0x80 + c.toNat / 4096 % 64),
      byte (0x80 + c.toNat / 64 % 64), byte (0x80 + c.toNat % 64)]

/-- UTF-8 encoding of a sequence of characters. -/
def encodeRunes : List Char → GoString
  | [] => []
  | c :: cs => encodeRune c ++ encodeRunes cs

/-- The Go string holding the given text: a string literal of the source. -/
def go (s : String) : GoString := encodeRunes s.data

instance : Coe String GoString := ⟨go⟩

/-- Continuation bytes, 0x80 to 0xBF. -/
def isCont (b : Byte) : Bool := 0x80 ≤ b.val && b.val ≤ 0xBF

/-- Lowest second byte accepted after the given first byte (acceptRanges). -/
def acceptLo (b0 : Byte) : Nat :=
  if b0.val = 0xE0 then 0xA0 else if b0.val = 0xF0 then 0x90 else 0x80

/-- Highest second byte accepted after the given first byte (acceptRanges). -/
def acceptHi (b0 : Byte) : Nat :=
  if b0.val = 0xED then 0x9F else if b0.val = 0xF4 then 0x8F else 0xBF

/-- The first character of a non-empty byte sequence and the number of bytes
it takes (utf8.DecodeRune): none and 1 when the sequence does not start with
a well-formed encoding (the byte is then replaced by U+FFFD). Encodings
longer than needed, of surrogates and of values above U+10FFFF are not
well-formed. -/
def decodeRune (b0 : Byte) (rest : GoString) : Option Char × Nat :=
  if b0.val < 0x80 then (some (Char.ofNat b0.val), 1)
  else if 0xC2 ≤ b0.val ∧ b0.val ≤ 0xDF then
    match rest with
    | b1 :: _ =>
      if isCont b1 then (some (Char.ofNat (b0.val % 32 * 64 + b1.val % 64)), 2) else (none, 1)
    | _ => (none, 1)
  else if 0xE0 ≤ b0.val ∧ b0.val ≤ 0xEF then
    match rest with
    | b1 :: b2 :: _ =>
      if acceptLo b0 ≤ b1.val ∧ b1.val ≤ acceptHi b0 ∧ isCont b2 then
        (some (Char.ofNat (b0.val % 16 * 4096 + b1.val % 64 * 64 + b2.val % 64)), 3)
      else (none, 1)
    | _ => (none, 1)
  else if 0xF0 ≤ b0.val ∧ b0.val ≤ 0xF4 then
    match rest with
    | b1 :: b2 :: b3 :: _ =>
      if acceptLo b0 ≤ b1.val ∧ b1.val ≤ acceptHi b0 ∧ isCont b2 ∧ isCont b3 then
        (some (Char.ofNat
          (b0.val % 8 * 262144 + b1.val % 64 * 4096 + b2.val % 64 * 64 + b3.val % 64)), 4)
      else (none, 1)
    | _ => (none, 1)
  else (none, 1)

/-- The characters of a Go string as a range loop sees them: a character for
each well-formed encoding, none for each byte that starts none. The first
argument bounds the recursion. -/
def runesAux : Nat → GoString → List (Option Char)
  | 0, _ => []
  | _ + 1, [] => []
  | fuel + 1, b :: bs =>
    (decodeRune b bs).1 :: runesAux fuel ((b :: bs).drop (decodeRune b bs).2)

/-- The characters of a Go string, none standing for an invalid byte. -/
def runes (s : GoString) : List (Option Char) := runesAux s.length s

/-- The text of a Go string with U+FFFD for each invalid byte. -/
def toText (s : GoString) : List Char := (runes s).map fun r => r.getD (Char.ofNat 0xFFFD)

/-- The test utf8.ValidString. -/
def validUTF8 (s : GoString) : Bool := (runes s).all Option.isSome

/-- The string with each invalid byte replaced by the encoding of U+FFFD. -/
def toValidUTF8 (s : GoString) : GoString := encodeRunes (toText s)

/-! ## JSON values and JSON text -/

/-- JSON values. An object keeps its members in document order, duplicates
included, because the struct decoder processes them one after the other. -/
inductive Json where
  | null
  | bool (b : Bool)
  | number (lit : String)
  | string (s : GoString)
  | array (xs : List Json)
  | object (members : List (String × Json))

/-- Lower-case hexadecimal digit, the table "0123456789abcdef" of the encoder. -/
def hexDigit (n : Nat) : Char :=
  if n < 10 then Char.ofNat (48 + n) else Char.ofNat (87 + n)

/-- Encoding of one character inside a JSON string literal, as json.Marshal
writes it (HTML escaping on): quote and backslash get a backslash, the
control characters with a short form use it, the other characters below
U+0020 and the three HTML characters become a u-escape with four hex digits,
as do U+2028 and U+2029; everything else is copied. (Encoders before Go 1.22
write backspace and form feed as u-escapes, which decode to the same
characters.) -/
def escapeRune (c : Char) : List Char :=
  if c = '"' then ['\\', '"']
  else if c = '\\' then ['\\', '\\']
  else if c = '\x08' then ['\\', 'b']
  else if c = '\x0c' then ['\\', 'f']
  else if c = '\n' then ['\\', 'n']
  else if c = '\r' then ['\\', 'r']
  else if c = '\t' then ['\\', 't']
  else if c.toNat < 0x20 ∨ c = '<' ∨ c = '>' ∨ c = '&' then
    ['\\', 'u', '0', '0', hexDigit (c.toNat / 16), hexDigit (c.toNat % 16)]
  else if c.toNat = 0x2028 ∨ c.toNat = 0x2029 then
    ['\\', 'u', '2', '0', '2', hexDigit (c.toNat % 16)]
  else [c]

/-- Escaped contents of a string literal, without the surrounding quotes. -/
def escapeAll : List Char → List Char
  | [] => []
  | c :: cs => escapeRune c ++ escapeAll cs

/-- Escaped form of one item of a Go string: a character is escaped as above,
an invalid byte is written as the u-escape of U+FFFD. -/
def escapeItem : Option Char → List Char
  | some c => escapeRune c
  | none => ['\\', 'u', 'f', 'f', 'f', 'd']

/-- Escaped contents of the literal of a Go string. -/
def escapeItems : List (Option Char) → List Char
  | [] => []
  | r :: rs => escapeItem r ++ escapeItems rs

/-- The quoted JSON string literal of a Go string. -/
def quote (s : GoString) : List Char :=
  '"' :: (escapeItems (runes s) ++ ['"'])

/-- The quoted JSON string literal of the name of a field. -/
def quoteKey (k : String) : List Char :=
  '"' :: (escapeAll k.data ++ ['"'])

mutual
/-- Compact JSON text of a value, as json.Marshal produces it. -/
def Json.render : Json → List Char
  | .null => "null".data
  | .bool b => if b then "true".data else "false".data
  | .number lit => lit.data
  | .string s => quote s
  | .array xs => '[' :: (renderElems xs ++ [']'])
  | .object ms => '\x7b' :: (renderMembers ms ++ ['\x7d'])
/-- Elements of an array, separated by commas. -/
def renderElems : List Json → List Char
  | [] => []
  | x :: rest =>
    match rest with
    | [] => x.render
    | _ :: _ => x.render ++ ',' :: renderElems rest
/-- Members of an object, separated by commas. -/
def renderMembers : List (String × Json) → List Char
  | [] => []
  | (k, v) :: rest =>
    match rest with
    | [] => quoteKey k ++ ':' :: v.render
    | _ :: _ => quoteKey k ++ ':' :: (v.render ++ ',' :: renderMembers rest)
end

/-- The four characters the scanner treats as white space. -/
def isSpace (c : Char) : Bool :=
  c = ' ' || c = '\t' || c = '\r' || c = '\n'

/-- Drop leading white space. -/
def skipSpace : List Char → List Char
  | [] => []
  | c :: cs => if isSpace c then skipSpace cs else c :: cs

/-- Value of a hexadecimal digit (either case). -/
def hexVal (c : Char) : Option Nat :=
  if 48 ≤ c.toNat ∧ c.toNat ≤ 57 then some (c.toNat - 48)
  else if 97 ≤ c.toNat ∧ c.toNat ≤ 102 then some (c.toNat - 87)
  else if 65 ≤ c.toNat ∧ c.toNat ≤ 70 then some (c.toNat - 55)
  else none

/-- Value of four hexadecimal digits (getu4 of the decoder, after the
backslash and the u). -/
def getu4 (h1 h2 h3 h4 : Char) : Option Nat :=
  match hexVal h1, hexVal h2, hexVal h3, hexVal h4 with
  | some a, some b, some c, some d => some (a * 4096 + b * 256 + c * 16 + d)
  | _, _, _, _ => none

/-- UTF-16 surrogate code units. -/
def isSurrogate (r : Nat) : Bool := 0xD800 ≤ r && r < 0xE000

/-- A surrogate escape that found no partner decodes to U+FFFD. -/
def flush (pending : Option Nat) (p : List Char × List Char) : List Char × List Char :=
  match pending with
  | none => p
  | some _ => (Char.ofNat 0xFFFD :: p.1, p.2)

/-- Read the rest of a string literal (the opening quote is consumed): the
decoded contents and the text after the closing quote. Raw characters below
U+0020 and unknown escapes are errors. A u-escape holding a surrogate is
kept in pending until the next item is seen: a high surrogate followed at
once by a low-surrogate escape gives the combined character, a surrogate
without partner gives U+FFFD. -/
def unquote (pending : Option Nat) : List Char → Option (List Char × List Char)
  | [] => none
  | c :: cs =>
    if c = '"' then some (flush pending ([], cs))
    else if c = '\\' then
      match cs with
      | [] => none
      | e :: r =>
        if e = '"' ∨ e = '\\' ∨ e = '/' then
          (unquote none r).map fun p => flush pending (e :: p.1, p.2)
        else if e = 'b' then (unquote none r).map fun p => flush pending ('\x08' :: p.1, p.2)
        else if e = 'f' then (unquote none r).map fun p => flush pending ('\x0c' :: p.1, p.2)
        else if e = 'n' then (unquote none r).map fun p => flush pending ('\n' :: p.1, p.2)
        else if e = 'r' then (unquote none r).map fun p => flush pending ('\r' :: p.1, p.2)
        else if e = 't' then (unquote none r).map fun p => flush pending ('\t' :: p.1, p.2)
        else if e = 'u' then
          match r with
          | [] => none
          | [_] => none
          | [_, _] => none
          | [_, _, _] => none
          | h1 :: h2 :: h3 :: h4 :: r1 =>
            match getu4 h1 h2 h3 h4 with
            | none => none
            | some rr =>
              match pending with
              | some hi =>
                if hi < 0xDC00 ∧ 0xDC00 ≤ rr ∧ rr < 0xE000 then
                  (unquote none r1).map fun p =>
                    (Char.ofNat ((hi - 0xD800) * 1024 + (rr - 0xDC00) + 0x10000) :: p.1, p.2)
                else if isSurrogate rr then
                  (unquote (some rr) r1).map fun p => (Char.ofNat 0xFFFD :: p.1, p.2)
                else
                  (unquote none r1).map fun p => (Char.ofNat 0xFFFD :: Char.ofNat rr :: p.1, p.2)
              | none =>
                if isSurrogate rr then unquote (some rr) r1
                else (unquote none r1).map fun p => (Char.ofNat rr :: p.1, p.2)
        else none
    else if c.toNat < 0x20 then none
    else (unquote none cs).map fun p => flush pending (c :: p.1, p.2)

/-- Decimal digits. -/
def isDigit (c : Char) : Bool := 48 ≤ c.toNat && c.toNat ≤ 57

/-- Leading run of decimal digits and what follows it. -/
def spanDigits : List Char → List Char × List Char
  | [] => ([], [])
  | c :: cs =>
    if isDigit c then ((spanDigits cs).1.cons c, (spanDigits cs).2) else ([], c :: cs)

/-- Integer part of a number: a single 0, or a non-zero digit and more digits. -/
def scanInt : List Char → Option (List Char × List Char)
  | [] => none
  | d :: r =>
    if d = '0' then some (['0'], r)
    else if isDigit d then some (d :: (spanDigits r).1, (spanDigits r).2)
    else none

/-- Optional fraction: a dot and at least one digit. -/
def scanFrac : List Char → Option (List Char × List Char)
  | [] => some ([], [])
  | c :: r =>
    if c = '.' then
      (if (spanDigits r).1 = [] then none else some ('.' :: (spanDigits r).1, (spanDigits r).2))
    else some ([], c :: r)

/-- Digits of an exponent, at least one. -/
def scanExpDigits (mark : List Char) (r : List Char) : Option (List Char × List Char) :=
  if (spanDigits r).1 = [] then none else some (mark ++ (spanDigits r).1, (spanDigits r).2)

/-- Optional exponent: e or E, an optional sign, and at least one digit. -/
def scanExp : List Char → Option (List Char × List Char)
  | [] => some ([], [])
  | c :: r =>
    if c = 'e' ∨ c = 'E' then
      match r with
      | [] => none
      | s :: r1 => if s = '+' ∨ s = '-' then scanExpDigits [c, s] r1 else scanExpDigits [c] (s :: r1)
    else some ([], c :: r)

/-- Digits, fraction and exponent of a number literal (after the optional
minus sign). -/
def scanUnsigned (cs : List Char) : Option (List Char × List Char) :=
  match scanInt cs with
  | none => none
  | some (i, r) =>
    match scanFrac r with
    | none => none
    | some (f, r1) =>
      match scanExp r1 with
      | none => none
      | some (e, r2) => some (i ++ f ++ e, r2)

/-- A number literal and the text after it. -/
def scanNumber : List Char → Option (List Char × List Char)
  | [] => none
  | c :: r =>
    if c = '-' then (scanUnsigned r).map fun p => ('-' :: p.1, p.2)
    else scanUnsigned (c :: r)

/-- Strip the given literal from the front of the text. -/
def expect : List Char → List Char → Option (List Char)
  | [], cs => some cs
  | _ :: _, [] => none
  | l :: ls, c :: cs => if l = c then expect ls cs else none

/-- Nesting limit of the scanner. -/
def maxNestingDepth : Nat := 10000

mutual
/-- One JSON value at the front of the text (no leading white space), and the
text after it. The first argument bounds the recursion, the second counts
the enclosing arrays and objects. -/
def parseValue : Nat → Nat → List Char → Option (Json × List Char)
  | 0, _, _ => none
  | fuel + 1, depth, cs =>
    match cs with
    | [] => none
    | c :: r =>
      if c = '"' then (unquote none r).map fun p => (Json.string (encodeRunes p.1), p.2)
      else if c = '[' then
        if depth + 1 > maxNestingDepth then none
        else
          match skipSpace r with
          | [] => none
          | c1 :: r1 =>
            if c1 = ']' then some (Json.array [], r1)
            else parseElems fuel (depth + 1) (c1 :: r1) []
      else if c = '\x7b' then
        if depth + 1 > maxNestingDepth then none
        else
          match skipSpace r with
          | [] => none
          | c1 :: r1 =>
            if c1 = '\x7d' then some (Json.object [], r1)
            else parseMembers fuel (depth + 1) (c1 :: r1) []
      else if c = 't' then (expect ['r', 'u', 'e'] r).map fun r1 => (Json.bool true, r1)
      else if c = 'f' then (expect ['a', 'l', 's', 'e'] r).map fun r1 => (Json.bool false, r1)
      else if c = 'n' then (expect ['u', 'l', 'l'] r).map fun r1 => (Json.null, r1)
      else (scanNumber (c :: r)).map fun p => (Json.number (String.mk p.1), p.2)
/-- Elements of an array after the opening bracket, up to the closing one. -/
def parseElems : Nat → Nat → List Char → List Json → Option (Json × List Char)
  | 0, _, _, _ => none
  | fuel + 1, depth, cs, acc =>
    match parseValue fuel depth cs with
    | none => none
    | some (v, r) =>
      match skipSpace r with
      | [] => none
      | c :: r1 =>
        if c = ',' then parseElems fuel depth (skipSpace r1) (acc ++ [v])
        else if c = ']' then some (Json.array (acc ++ [v]), r1)
        else none
/-- Members of an object after the opening brace, up to the closing one. -/
def parseMembers : Nat → Nat → List Char → List (String × Json) → Option (Json × List Char)
  | 0, _, _, _ => none
  | fuel + 1, depth, cs, acc =>
    match cs with
    | [] => none
    | q :: r =>
      if q = '"' then
        match unquote none r with
        | none => none
        | some (k, r1) =>
          match skipSpace r1 with
          | [] => none
          | col :: r2 =>
            if col = ':' then
              match parseValue fuel depth (skipSpace r2) with
              | none => none
              | some (v, r3) =>
                match skipSpace r3 with
                | [] => none
                | c :: r4 =>
                  if c = ',' then parseMembers fuel depth (skipSpace r4) (acc ++ [(String.mk k, v)])
                  else if c = '\x7d' then some (Json.object (acc ++ [(String.mk k, v)]), r4)
                  else none
            else none
      else none
end

/-- A whole JSON text, as characters: optional white space, one value,
optional white space. -/
def parseText (cs : List Char) : Option Json :=
  match parseValue ((skipSpace cs).length + 1) 0 (skipSpace cs) with
  | none => none
  | some (v, r) => if skipSpace r = [] then some v else none

/-- The JSON value of a Go string. The scanner only acts on ASCII bytes and
the string decoder reads the other bytes with utf8.DecodeRune, writing U+FFFD
for an invalid byte, so the text is read through toText. -/
def parseJson (data : GoString) : Option Json :=
  parseText (toText data)

/-! ## Errors -/

/-- Errors of json.Unmarshal: a text that is not JSON, or a JSON value that
does not fit the Go value it is stored into (value is the kind of the JSON
value, field the key of the struct field, empty for the struct itself). -/
inductive JsonError where
  | SyntaxError
  | UnmarshalTypeError (value : String) (field : String)
  deriving DecidableEq, Repr

/-- Modelled from the spec: the package-level error sentinel values this file
refers to (ErrURLRequired and the failed-creating, failed-updating and
failed-deleting markers). They are declared in another file of the package;
only their identity is used here, their texts are a parameter (Messages). -/
inductive Sentinel where
  | ErrURLRequired
  | ErrFailedCreatingEventWebhook
  | ErrFailedUpdatingEventWebhook
  | ErrFailedDeletingEventWebhook
  deriving DecidableEq, Repr

/-- Go error values, as far as this file builds or receives them. The
constructor errorf is fmt.Errorf with a format holding one %w verb: before
and after are the formatted texts around the wrapped error. -/
inductive GoError where
  | sentinel (s : Sentinel)
  | json (e : JsonError)
  | foreign (msg : GoString)
  | errorf (before : GoString) (wrapped : GoError) (after : GoString)
  deriving DecidableEq, Repr

/-- Texts of the error values created outside this file. -/
structure Messages where
  sentinel : Sentinel → GoString
  json : JsonError → GoString

/-- The Error method. -/
def GoError.Error (m : Messages) : GoError → GoString
  | .sentinel s => m.sentinel s
  | .json e => m.json e
  | .foreign msg => msg
  | .errorf before wrapped after => before ++ wrapped.Error m ++ after

/-- The Unwrap method. -/
def GoError.Unwrap : GoError → Option GoError
  | .errorf _ wrapped _ => some wrapped
  | _ => none

/-- The test errors.Is: the target is the error itself or is reached by
unwrapping it. -/
def GoError.Is : GoError → GoError → Bool
  | .sentinel s, target => decide (GoError.sentinel s = target)
  | .json e, target => decide (GoError.json e = target)
  | .foreign msg, target => decide (GoError.foreign msg = target)
  | .errorf before wrapped after, target =>
    decide (GoError.errorf before wrapped after = target) || GoError.Is wrapped target

def ErrURLRequired : GoError := .sentinel .ErrURLRequired

def ErrFailedCreatingEventWebhook : GoError := .sentinel .ErrFailedCreatingEventWebhook

def ErrFailedUpdatingEventWebhook : GoError := .sentinel .ErrFailedUpdatingEventWebhook

def ErrFailedDeletingEventWebhook : GoError := .sentinel .ErrFailedDeletingEventWebhook

/-- Modelled from the spec: the type RequestError, declared in another file of
the package. Every error is returned paired with an HTTP status code; the
struct literals of this file give it the two fields StatusCode and Err. -/
structure RequestError where
  StatusCode : Int
  Err : Option GoError
  deriving DecidableEq, Repr

def StatusOK : Int := 200

def StatusMultipleChoices : Int := 300

def StatusInternalServerError : Int := 500

/-- Decimal digits of a natural number in front of acc, most significant
first; the first argument bounds the recursion. -/
def natDigits : Nat → Nat → GoString → GoString
  | 0, _, acc => acc
  | fuel + 1, n, acc =>
    if n / 10 = 0 then byte (48 + n % 10) :: acc
    else natDigits fuel (n / 10) (byte (48 + n % 10) :: acc)

/-- Decimal text of a natural number. -/
def formatNat (n : Nat) : GoString := natDigits (n + 1) n []

/-- Decimal text of an integer, the %d verb: a minus sign for a negative
number, then the digits. -/
def formatInt : Int → GoString
  | .ofNat n => formatNat n
  | .negSucc n => byte 45 :: formatNat (n + 1)

/-! ## The two records and their JSON form -/

/-- EventWebhook is a Sendgrid event webhook settings. -/
structure EventWebhook where
  Enabled : Bool
  ID : GoString
  FriendlyName : GoString
  URL : GoString
  GroupResubscribe : Bool
  Delivered : Bool
  GroupUnsubscribe : Bool
  SpamReport : Bool
  Bounce : Bool
  Deferred : Bool
  Unsubscribe : Bool
  Processed : Bool
  Open : Bool
  Click : Bool
  Dropped : Bool
  OAuthClientID : GoString
  OAuthClientSecret : GoString
  OAuthTokenURL : GoString
  deriving DecidableEq, Repr

structure EventWebhookSigning where
  Enabled : Bool
  PublicKey : GoString
  deriving DecidableEq, Repr

/-- The zero value of EventWebhook (var body EventWebhook). -/
def EventWebhook.zero : EventWebhook :=
  { Enabled := false, ID := "", FriendlyName := "", URL := "", GroupResubscribe := false,
    Delivered := false, GroupUnsubscribe := false, SpamReport := false, Bounce := false,
    Deferred := false, Unsubscribe := false, Processed := false, Open := false, Click := false,
    Dropped := false, OAuthClientID := "", OAuthClientSecret := "", OAuthTokenURL := "" }

/-- The zero value of EventWebhookSigning. -/
def EventWebhookSigning.zero : EventWebhookSigning :=
  { Enabled := false, PublicKey := "" }

/-- A string field tagged omitempty: left out when it is the empty string. -/
def omitEmpty (key : String) (s : GoString) : List (String × Json) :=
  if s = "" then [] else [(key, Json.string s)]

/-- Members that json.Marshal writes for an EventWebhook: one per field in
declaration order under the key of its json tag; the five string fields
tagged omitempty are left out when empty. -/
def EventWebhook.members (w : EventWebhook) : List (String × Json) :=
  [("enabled", Json.bool w.Enabled), ("id", Json.string w.ID)]
    ++ omitEmpty "friendly_name" w.FriendlyName
    ++ omitEmpty "url" w.URL
    ++ [("group_resubscribe", Json.bool w.GroupResubscribe),
        ("delivered", Json.bool w.Delivered),
        ("group_unsubscribe", Json.bool w.GroupUnsubscribe),
        ("spam_report", Json.bool w.SpamReport),
        ("bounce", Json.bool w.Bounce),
        ("deferred", Json.bool w.Deferred),
        ("unsubscribe", Json.bool w.Unsubscribe),
        ("processed", Json.bool w.Processed),
        ("open", Json.bool w.Open),
        ("click", Json.bool w.Click),
        ("dropped", Json.bool w.Dropped)]
    ++ omitEmpty "oauth_client_id" w.OAuthClientID
    ++ omitEmpty "oauth_client_secret" w.OAuthClientSecret
    ++ omitEmpty "oauth_token_url" w.OAuthTokenURL

/-- The JSON object json.Marshal builds from an EventWebhook. -/
def EventWebhook.toJson (w : EventWebhook) : Json :=
  Json.object w.members

/-- The JSON object json.Marshal builds from an EventWebhookSigning: neither
field is tagged omitempty. -/
def EventWebhookSigning.toJson (s : EventWebhookSigning) : Json :=
  Json.object [("enabled", Json.bool s.Enabled), ("public_key", Json.string s.PublicKey)]

/-- Case folding of one character of an object key, as far as it can reach
the field names of this file (lower-case ASCII letters and the underscore):
upper-case ASCII letters, the Kelvin sign and the long s. -/
def foldRune (c : Char) : Char :=
  if 65 ≤ c.toNat ∧ c.toNat ≤ 90 then Char.ofNat (c.toNat + 32)
  else if c.toNat = 0x212A then 'k'
  else if c.toNat = 0x17F then 's'
  else c

/-- Folded form of an object key: json.Unmarshal matches keys with field
names without regard to case. -/
def foldName (key : String) : String :=
  String.mk (key.data.map foldRune)

/-- Store a JSON value into a bool field: the value of the field afterwards
and the type error, if any. true and false are stored, null leaves the field
as it is, every other value leaves it as it is and is a type error. -/
def storeBool (field : String) (old : Bool) : Json → Bool × Option JsonError
  | .bool b => (b, none)
  | .null => (old, none)
  | .number _ => (old, some (.UnmarshalTypeError "number" field))
  | .string _ => (old, some (.UnmarshalTypeError "string" field))
  | .array _ => (old, some (.UnmarshalTypeError "array" field))
  | .object _ => (old, some (.UnmarshalTypeError "object" field))

/-- Store a JSON value into a string field: the value of the field afterwards
and the type error, if any. A string is stored, null leaves the field as it
is, every other value leaves it as it is and is a type error. -/
def storeString (field : String) (old : GoString) : Json → GoString × Option JsonError
  | .string s => (s, none)
  | .null => (old, none)
  | .number _ => (old, some (.UnmarshalTypeError "number" field))
  | .bool _ => (old, some (.UnmarshalTypeError "bool" field))
  | .array _ => (old, some (.UnmarshalTypeError "array" field))
  | .object _ => (old, some (.UnmarshalTypeError "object" field))

/-- Decode one member of an object into an EventWebhook: the key selects
the field whose json name it matches, a key matching no field is skipped.
The result is the record afterwards and the type error, if any. -/
def EventWebhook.setField (w : EventWebhook) (key : String) (v : Json) :
    EventWebhook × Option JsonError :=
  if foldName key = "enabled" then
    (storeBool "enabled" w.Enabled v).map (fun b => { w with Enabled := b }) id
  else if foldName key = "id" then
    (storeString "id" w.ID v).map (fun s => { w with ID := s }) id
  else if foldName key = "friendly_name" then
    (storeString "friendly_name" w.FriendlyName v).map (fun s => { w with FriendlyName := s }) id
  else if foldName key = "url" then
    (storeString "url" w.URL v).map (fun s => { w with URL := s }) id
  else if foldName key = "group_resubscribe" then
    (storeBool "group_resubscribe" w.GroupResubscribe v).map (fun b => { w with GroupResubscribe := b }) id
  else if foldName key = "delivered" then
    (storeBool "delivered" w.Delivered v).map (fun b => { w with Delivered := b }) id
  else if foldName key = "group_unsubscribe" then
    (storeBool "group_unsubscribe" w.GroupUnsubscribe v).map (fun b => { w with GroupUnsubscribe := b }) id
  else if foldName key = "spam_report" then
    (storeBool "spam_report" w.SpamReport v).map (fun b => { w with SpamReport := b }) id
  else if foldName key = "bounce" then
    (storeBool "bounce" w.Bounce v).map (fun b => { w with Bounce := b }) id
  else if foldName key = "deferred" then
    (storeBool "deferred" w.Deferred v).map (fun b => { w with Deferred := b }) id
  else if foldName key = "unsubscribe" then
    (storeBool "unsubscribe" w.Unsubscribe v).map (fun b => { w with Unsubscribe := b }) id
  else if foldName key = "processed" then
    (storeBool "processed" w.Processed v).map (fun b => { w with Processed := b }) id
  else if foldName key = "open" then
    (storeBool "open" w.Open v).map (fun b => { w with Open := b }) id
  else if foldName key = "click" then
    (storeBool "click" w.Click v).map (fun b => { w with Click := b }) id
  else if foldName key = "dropped" then
    (storeBool "dropped" w.Dropped v).map (fun b => { w with Dropped := b }) id
  else if foldName key = "oauth_client_id" then
    (storeString "oauth_client_id" w.OAuthClientID v).map (fun s => { w with OAuthClientID := s }) id
  else if foldName key = "oauth_client_secret" then
    (storeString "oauth_client_secret" w.OAuthClientSecret v).map (fun s => { w with OAuthClientSecret := s }) id
  else if foldName key = "oauth_token_url" then
    (storeString "oauth_token_url" w.OAuthTokenURL v).map (fun s => { w with OAuthTokenURL := s }) id
  else (w, none)

/-- Decode one member of an object into an EventWebhookSigning. -/
def EventWebhookSigning.setField (s : EventWebhookSigning) (key : String) (v : Json) :
    EventWebhookSigning × Option JsonError :=
  if foldName key = "enabled" then
    (storeBool "enabled" s.Enabled v).map (fun b => { s with Enabled := b }) id
  else if foldName key = "public_key" then
    (storeString "public_key" s.PublicKey v).map (fun k => { s with PublicKey := k }) id
  else (s, none)

/-- Decode the members of an object one after the other, so that of two
members for the same field the later one wins. A type error does not stop
the decoding; the first one is the error of the whole decoding. -/
def decodeMembers {α : Type} (setField : α → String → Json → α × Option JsonError) :
    List (String × Json) → α → α × Option JsonError
  | [], a => (a, none)
  | (k, v) :: rest, a =>
    match (setField a k v).2 with
    | none => decodeMembers setField rest (setField a k v).1
    | some e => ((decodeMembers setField rest (setField a k v).1).1, some e)

/-- Decode a JSON value into a struct that starts as zero: an object is
decoded member by member, null leaves the struct as it is, every other value
leaves it as it is and is a type error. -/
def decodeStruct {α : Type} (zero : α) (setField : α → String → Json → α × Option JsonError) :
    Json → α × Option JsonError
  | .object ms => decodeMembers setField ms zero
  | .null => (zero, none)
  | .bool _ => (zero, some (.UnmarshalTypeError "bool" ""))
  | .number _ => (zero, some (.UnmarshalTypeError "number" ""))
  | .string _ => (zero, some (.UnmarshalTypeError "string" ""))
  | .array _ => (zero, some (.UnmarshalTypeError "array" ""))

/-- The call json.Unmarshal([]byte(data), &body) with body a zero
EventWebhook: the body afterwards and the error returned. A text that is not
JSON leaves the body untouched. -/
def unmarshalEventWebhook (data : GoString) : EventWebhook × Option JsonError :=
  match parseJson data with
  | none => (EventWebhook.zero, some .SyntaxError)
  | some j => decodeStruct EventWebhook.zero EventWebhook.setField j

/-- The call json.Unmarshal([]byte(data), &body) with body a zero
EventWebhookSigning: the body afterwards and the error returned. -/
def unmarshalEventWebhookSigning (data : GoString) : EventWebhookSigning × Option JsonError :=
  match parseJson data with
  | none => (EventWebhookSigning.zero, some .SyntaxError)
  | some j => decodeStruct EventWebhookSigning.zero EventWebhookSigning.setField j

/-- The text json.Marshal returns for an EventWebhook. -/
def marshalEventWebhook (w : EventWebhook) : GoString :=
  encodeRunes w.toJson.render

/-- The text json.Marshal returns for an EventWebhookSigning. -/
def marshalEventWebhookSigning (s : EventWebhookSigning) : GoString :=
  encodeRunes s.toJson.render

def parseEventWebhook (respBody : GoString) : Option EventWebhook × RequestError :=
  match (unmarshalEventWebhook respBody).2 with
  | some err =>
    (none, { StatusCode := StatusInternalServerError,
             Err := some (.errorf "failed parsing event webhook: " (.json err) "") })
  | none => (some (unmarshalEventWebhook respBody).1, { StatusCode := StatusOK, Err := none })

def parseEventWebhookSigning (respBody : GoString) : Option EventWebhookSigning × RequestError :=
  match (unmarshalEventWebhookSigning respBody).2 with
  | some err =>
    (none, { StatusCode := StatusInternalServerError,
             Err := some (.errorf "failed parsing event webhook: " (.json err) "") })
  | none =>
    (some (unmarshalEventWebhookSigning respBody).1, { StatusCode := StatusOK, Err := none })

/-! ## The transport and the six operations -/

/-- The request bodies this file hands to Client.Post. -/
inductive Payload where
  | eventWebhook (w : EventWebhook)
  | eventWebhookSigning (s : EventWebhookSigning)
  deriving DecidableEq, Repr

/-- The JSON object a request body encodes to. -/
def Payload.toJson : Payload → Json
  | .eventWebhook w => w.toJson
  | .eventWebhookSigning s => s.toJson

/-- A call of one of the two transport methods of the client. -/
inductive Call where
  | Get (method : GoString) (path : GoString)
  | Post (method : GoString) (path : GoString) (payload : Payload)
  deriving DecidableEq, Repr

/-- What a transport method returns: body, status code and error. -/
structure Reply where
  respBody : GoString
  statusCode : Int
  err : Option GoError
  deriving DecidableEq, Repr

/-- Modelled from the spec: the client, declared in another file of the
package, reduced to its transport collaborator. The reply to a call is a
parameter and may depend on the calls issued before it. -/
structure Client where
  roundTrip : List Call → Call → Reply

/-- Modelled from the spec: the method Get(ctx, method, path) of the
transport collaborator, returning body, status code and error. One call is
issued and recorded. -/
def Client.Get (c : Client) (log : List Call) (method path : GoString) : Reply × List Call :=
  (c.roundTrip log (Call.Get method path), log ++ [Call.Get method path])

/-- Modelled from the spec: the method Post(ctx, method, path, payload) of the
transport collaborator, returning body, status code and error. One call is
issued and recorded. -/
def Client.Post (c : Client) (log : List Call) (method path : GoString) (payload : Payload) :
    Reply × List Call :=
  (c.roundTrip log (Call.Post method path payload), log ++ [Call.Post method path payload])

def DeleteEventWebhook (c : Client) (log : List Call) (id : GoString) :
    RequestError × List Call :=
  let path := "/user/webhooks/event/settings/" ++ id
  let r := c.Get log "DELETE" path
  match r.1.err with
  | some err =>
    ({ StatusCode := StatusInternalServerError,
       Err := some (.errorf ("failed deleting event webhook " ++ id ++ ": ") err "") }, r.2)
  | none =>
    if r.1.statusCode ≥ StatusMultipleChoices then
      ({ StatusCode := r.1.statusCode,
         Err := some (.errorf "" ErrFailedDeletingEventWebhook
           (", status: " ++ formatInt r.1.statusCode ++ ", response: " ++ r.1.respBody)) }, r.2)
    else ({ StatusCode := StatusOK, Err := none }, r.2)

def CreateEventWebhook (c : Client) (log : List Call) (enabled : Bool) (friendlyName : GoString)
    (url : GoString) (groupResubscribe : Bool) (delivered : Bool) (groupUnsubscribe : Bool)
    (spamReport : Bool) (bounce : Bool) (deferred : Bool) (unsubscribe : Bool)
    (processed : Bool) (open_ : Bool) (click : Bool) (dropped : Bool) (oauthClientID : GoString)
    (oauthClientSecret : GoString) (oauthTokenURL : GoString) :
    (Option EventWebhook × RequestError) × List Call :=
  if url = "" then
    ((none, { StatusCode := StatusInternalServerError, Err := some ErrURLRequired }), log)
  else
    let r := c.Post log "POST" "/user/webhooks/event/settings" (.eventWebhook
      { EventWebhook.zero with
        Enabled := enabled,
        FriendlyName := friendlyName,
        URL := url,
        GroupResubscribe := groupResubscribe,
        Delivered := delivered,
        GroupUnsubscribe := groupUnsubscribe,
        SpamReport := spamReport,
        Bounce := bounce,
        Deferred := deferred,
        Unsubscribe := unsubscribe,
        Processed := processed,
        Open := open_,
        Click := click,
        Dropped := dropped,
        OAuthClientID := oauthClientID,
        OAuthClientSecret := oauthClientSecret,
        OAuthTokenURL := oauthTokenURL })
    match r.1.err with
    | some err =>
      ((none, { StatusCode := StatusInternalServerError,
                Err := some (.errorf "failed creating event webhook: " err "") }), r.2)
    | none =>
      if r.1.statusCode ≥ StatusMultipleChoices then
        ((none, { StatusCode := r.1.statusCode,
                  Err := some (.errorf "" ErrFailedCreatingEventWebhook
                    (", status: " ++ formatInt r.1.statusCode ++ ", response: " ++ r.1.respBody)) }),
          r.2)
      else (parseEventWebhook r.1.respBody, r.2)

def UpdateEventWebhook (c : Client) (log : List Call) (id : GoString) (enabled : Bool)
    (friendlyName : GoString) (url : GoString) (groupResubscribe : Bool) (delivered : Bool)
    (groupUnsubscribe : Bool) (spamReport : Bool) (bounce : Bool) (deferred : Bool)
    (unsubscribe : Bool) (processed : Bool) (open_ : Bool) (click : Bool) (dropped : Bool)
    (oauthClientID : GoString) (oauthClientSecret : GoString) (oauthTokenURL : GoString) :
    (Option EventWebhook × RequestError) × List Call :=
  if url = "" then
    ((none, { StatusCode := StatusInternalServerError, Err := some ErrURLRequired }), log)
  else
    let path := "/user/webhooks/event/settings/" ++ id
    let r := c.Post log "PATCH" path (.eventWebhook
      { EventWebhook.zero with
        Enabled := enabled,
        FriendlyName := friendlyName,
        URL := url,
        GroupResubscribe := groupResubscribe,
        Delivered := delivered,
        GroupUnsubscribe := groupUnsubscribe,
        SpamReport := spamReport,
        Bounce := bounce,
        Deferred := deferred,
        Unsubscribe := unsubscribe,
        Processed := processed,
        Open := open_,
        Click := click,
        Dropped := dropped,
        OAuthClientID := oauthClientID,
        OAuthClientSecret := oauthClientSecret,
        OAuthTokenURL := oauthTokenURL })
    match r.1.err with
    | some err =>
      ((none, { StatusCode := StatusInternalServerError,
                Err := some (.errorf "failed patching event webhook: " err "") }), r.2)
    | none =>
      if r.1.statusCode ≥ StatusMultipleChoices then
        ((none, { StatusCode := r.1.statusCode,
                  Err := some (.errorf "" ErrFailedUpdatingEventWebhook
                    (", status: " ++ formatInt r.1.statusCode ++ ", response: " ++ r.1.respBody)) }),
          r.2)
      else (parseEventWebhook r.1.respBody, r.2)

/-- ReadEventWebhook retrieves an EventWebhook and returns it. -/
def ReadEventWebhook (c : Client) (log : List Call) (id : GoString) :
    (Option EventWebhook × RequestError) × List Call :=
  let path := "/user/webhooks/event/settings/" ++ id
  let r := c.Get log "GET" path
  match r.1.err with
  | some err => ((none, { StatusCode := StatusInternalServerError, Err := some err }), r.2)
  | none => (parseEventWebhook r.1.respBody, r.2)

def ConfigureEventWebhookSigning (c : Client) (log : List Call) (enabled : Bool) :
    (Option EventWebhookSigning × RequestError) × List Call :=
  let r := c.Post log "PATCH" "/user/webhooks/event/settings/signed" (.eventWebhookSigning
    { EventWebhookSigning.zero with Enabled := enabled })
  match r.1.err with
  | some err =>
    ((none, { StatusCode := StatusInternalServerError,
              Err := some (.errorf "failed creating event webhook: " err "") }), r.2)
  | none =>
    if r.1.statusCode ≥ StatusMultipleChoices then
      ((none, { StatusCode := r.1.statusCode,
                Err := some (.errorf "" ErrFailedCreatingEventWebhook
                  (", status: " ++ formatInt r.1.statusCode ++ ", response: " ++ r.1.respBody)) }),
        r.2)
    else (parseEventWebhookSigning r.1.respBody, r.2)

def ReadEventWebhookSigning (c : Client) (log : List Call) :
    (Option EventWebhookSigning × RequestError) × List Call :=
  let r := c.Get log "GET" "/user/webhooks/event/settings/signed"
  match r.1.err with
  | some err => ((none, { StatusCode := StatusInternalServerError, Err := some err }), r.2)
  | none => (parseEventWebhookSigning r.1.respBody, r.2)

/-- A client whose HTTP layer answers every call with the same reply. -/
def stubClient (reply : Reply) : Client :=
  { roundTrip := fun _ _ => reply }

/-! ## Notions used to state the properties -/

/-- The JSON values a field of the two records encodes to: booleans and
strings. -/
def isScalar : Json → Bool
  | .bool _ => true
  | .string _ => true
  | _ => false

/-- The json names of the fields of EventWebhook, from its field tags. -/
def EventWebhook.fieldNames : List String :=
  ["enabled", "id", "friendly_name", "url", "group_resubscribe", "delivered",
    "group_unsubscribe", "spam_report", "bounce", "deferred", "unsubscribe", "processed",
    "open", "click", "dropped", "oauth_client_id", "oauth_client_secret", "oauth_token_url"]

/-- The json names of the fields of EventWebhookSigning, from its field tags. -/
def EventWebhookSigning.fieldNames : List String :=
  ["enabled", "public_key"]

/-- The json names of the twelve bool fields of EventWebhook. -/
def EventWebhook.boolFieldNames : List String :=
  ["enabled", "group_resubscribe", "delivered", "group_unsubscribe", "spam_report", "bounce",
    "deferred", "unsubscribe", "processed", "open", "click", "dropped"]

/-- The json names of the six string fields of EventWebhook. -/
def EventWebhook.stringFieldNames : List String :=
  ["id", "friendly_name", "url", "oauth_client_id", "oauth_client_secret", "oauth_token_url"]

/-- The JSON values a bool field takes without error: booleans and null. -/
def fitsBool : Json → Bool
  | .bool _ => true
  | .null => true
  | _ => false

/-- The JSON values a string field takes without error: strings and null. -/
def fitsString : Json → Bool
  | .string _ => true
  | .null => true
  | _ => false

/-- A member of an object is accepted by EventWebhook when its key names no
field, or names a field that takes its value. -/
def EventWebhook.accepts (key : String) (v : Json) : Bool :=
  if foldName key ∈ EventWebhook.boolFieldNames then fitsBool v
  else if foldName key ∈ EventWebhook.stringFieldNames then fitsString v
  else true

/-- A member of an object is accepted by EventWebhookSigning when its key
names no field, or names a field that takes its value. -/
def EventWebhookSigning.accepts (key : String) (v : Json) : Bool :=
  if foldName key = "enabled" then fitsBool v
  else if foldName key = "public_key" then fitsString v
  else true

/-- The JSON values that fit a struct: null, and the objects all of whose
members are accepted. -/
def fitsStruct (accepts : String → Json → Bool) : Json → Bool
  | .null => true
  | .object ms => ms.all fun kv => accepts kv.1 kv.2
  | _ => false

/-- The texts that fit a struct: the JSON texts whose value fits it. -/
def decodable (accepts : String → Json → Bool) (data : GoString) : Bool :=
  match parseJson data with
  | none => false
  | some j => fitsStruct accepts j

/-- A JSON value as the scanner reads it back: in a string, each invalid byte
has become the encoding of U+FFFD. (The values this is applied to are the
booleans and strings the two records encode to.) -/
def Json.toValid : Json → Json
  | .string s => .string (toValidUTF8 s)
  | .null => .null
  | .bool b => .bool b
  | .number lit => .number lit
  | .array xs => .array xs
  | .object ms => .object ms

/-- The record with each invalid byte of its string fields replaced by the
encoding of U+FFFD. -/
def EventWebhook.toValid (w : EventWebhook) : EventWebhook :=
  { w with
    ID := toValidUTF8 w.ID,
    FriendlyName := toValidUTF8 w.FriendlyName,
    URL := toValidUTF8 w.URL,
    OAuthClientID := toValidUTF8 w.OAuthClientID,
    OAuthClientSecret := toValidUTF8 w.OAuthClientSecret,
    OAuthTokenURL := toValidUTF8 w.OAuthTokenURL }

/-- All six string fields of the record are valid UTF-8. -/
def EventWebhook.validStrings (w : EventWebhook) : Bool :=
  validUTF8 w.ID && validUTF8 w.FriendlyName && validUTF8 w.URL && validUTF8 w.OAuthClientID
    && validUTF8 w.OAuthClientSecret && validUTF8 w.OAuthTokenURL

/-- Value of a decimal digit. -/
def digitValue (b : Byte) : Option Nat :=
  if 48 ≤ b.val ∧ b.val ≤ 57 then some (b.val - 48) else none

/-- The number written by a sequence of decimal digits, continuing from acc. -/
def readDigits : GoString → Nat → Option Nat
  | [], acc => some acc
  | b :: bs, acc =>
    match digitValue b with
    | none => none
    | some d => readDigits bs (acc * 10 + d)

/-- The natural number written in decimal by a non-empty sequence of digits. -/
def readNat : GoString → Option Nat
  | [] => none
  | b :: bs => readDigits (b :: bs) 0

/-- The integer written in decimal: digits, or a minus sign and digits. -/
def readInt : GoString → Option Int
  | [] => none
  | b :: bs =>
    if b.val = 45 then (readNat bs).map fun n => -(n : Int)
    else (readNat (b :: bs)).map fun n => (n : Int)

/-- The keys of a list of object members. -/
def memberKeys (ms : List (String × Json)) : List String :=
  ms.map Prod.fst

/-- A record with every flag set and every string field non-empty. -/
def fullEventWebhook : EventWebhook :=
  { Enabled := true, ID := "wh_1", FriendlyName := "hook", URL := "https://example.org/events",
    GroupResubscribe := true, Delivered := true, GroupUnsubscribe := true, SpamReport := true,
    Bounce := true, Deferred := true, Unsubscribe := true, Processed := true, Open := true,
    Click := true, Dropped := true, OAuthClientID := "cid", OAuthClientSecret := "s3cr3t",
    OAuthTokenURL := "https://example.org/token" }

/-! ## UTF-8: decoding inverts encoding -/

theorem byte_val (n : Nat) : (byte n).val = n % 256 := rfl

theorem char_range (c : Char) :
    c.toNat < 0xD800 ∨ (0xDFFF < c.toNat ∧ c.toNat < 0x110000) := c.valid

theorem decodeRune_encodeRune (c : Char) (rest : GoString) :
    ∃ b bs, encodeRune c = b :: bs
      ∧ decodeRune b (bs ++ rest) = (some c, (b :: bs).length) := by
  have hr := char_range c
  unfold encodeRune
  split_ifs with h1 h2 h3
  · refine ⟨_, _, rfl, ?_⟩
    have : c.toNat % 256 = c.toNat := by omega
    simp only [decodeRune, byte_val, this, h1, if_true, List.length_singleton, Char.ofNat_toNat]
  · refine ⟨_, _, rfl, ?_⟩
    have e1 : (0xC0 + c.toNat / 64) % 256 = 0xC0 + c.toNat / 64 := by omega
    have e2 : (0x80 + c.toNat % 64) % 256 = 0x80 + c.toNat % 64 := by omega
    have hc : isCont (byte (0x80 + c.toNat % 64)) = true := by
      simp only [isCont, byte_val, e2]; simp; omega
    have hv : (0xC0 + c.toNat / 64) % 32 * 64 + (0x80 + c.toNat % 64) % 64 = c.toNat := by omega
    simp only [decodeRune, byte_val, e1, e2, List.cons_append, List.nil_append, List.singleton_append, hc, hv]
    rw [if_neg (by omega), if_pos (by omega)]
    simp [Char.ofNat_toNat]
  · refine ⟨_, _, rfl, ?_⟩
    have e1 : (0xE0 + c.toNat / 4096) % 256 = 0xE0 + c.toNat / 4096 := by omega
    have e2 : (0x80 + c.toNat / 64 % 64) % 256 = 0x80 + c.toNat / 64 % 64 := by omega
    have e3 : (0x80 + c.toNat % 64) % 256 = 0x80 + c.toNat % 64 := by omega
    have hc : isCont (byte (0x80 + c.toNat % 64)) = true := by
      simp only [isCont, byte_val, e3]; simp; omega
    have hv : (0xE0 + c.toNat / 4096) % 16 * 4096 + (0x80 + c.toNat / 64 % 64) % 64 * 64
        + (0x80 + c.toNat % 64) % 64 = c.toNat := by omega
    simp only [decodeRune, byte_val, e1, e2, e3, List.cons_append, List.nil_append, hc, hv]
    rw [if_neg (by omega), if_neg (by omega), if_pos (by omega), if_pos (by
      refine ⟨?_, ?_, trivial⟩
      · simp only [acceptLo, byte_val, e1]; split_ifs <;> omega
      · simp only [acceptHi, byte_val, e1]; split_ifs <;> omega)]
    simp [Char.ofNat_toNat]
  · refine ⟨_, _, rfl, ?_⟩
    have e1 : (0xF0 + c.toNat / 262144) % 256 = 0xF0 + c.toNat / 262144 := by omega
    have e2 : (0x80 + c.toNat / 4096 % 64) % 256 = 0x80 + c.toNat / 4096 % 64 := by omega
    have e3 : (0x80 + c.toNat / 64 % 64) % 256 = 0x80 + c.toNat / 64 % 64 := by omega
    have e4 : (0x80 + c.toNat % 64) % 256 = 0x80 + c.toNat % 64 := by omega
    have hc3 : isCont (byte (0x80 + c.toNat / 64 % 64)) = true := by
      simp only [isCont, byte_val, e3]; simp; omega
    have hc4 : isCont (byte (0x80 + c.toNat % 64)) = true := by
      simp only [isCont, byte_val, e4]; simp; omega
    have hv : (0xF0 + c.toNat / 262144) % 8 * 262144 + (0x80 + c.toNat / 4096 % 64) % 64 * 4096
        + (0x80 + c.toNat / 64 % 64) % 64 * 64 + (0x80 + c.toNat % 64) % 64 = c.toNat := by
      omega
    simp only [decodeRune, byte_val, e1, e2, e3, e4, List.cons_append, List.nil_append, hc3, hc4,
      hv]
    rw [if_neg (by omega), if_neg (by omega), if_neg (by omega), if_pos (by omega), if_pos (by
      refine ⟨?_, ?_, trivial, trivial⟩
      · simp only [acceptLo, byte_val, e1]; split_ifs <;> omega
      · simp only [acceptHi, byte_val, e1]; split_ifs <;> omega)]
    simp [Char.ofNat_toNat]

theorem encodeRunes_length (cs : List Char) : cs.length ≤ (encodeRunes cs).length := by
  induction cs with
  | nil => simp [encodeRunes]
  | cons c cs ih =>
    obtain ⟨b, bs, hb, _⟩ := decodeRune_encodeRune c []
    rw [encodeRunes, hb]
    simp only [List.length_append, List.length_cons] at ih ⊢
    omega

theorem runesAux_encodeRunes (cs : List Char) :
    ∀ fuel, (encodeRunes cs).length ≤ fuel → runesAux fuel (encodeRunes cs) = cs.map some := by
  induction cs with
  | nil =>
    intro fuel _
    cases fuel <;> rfl
  | cons c cs ih =>
    intro fuel hf
    obtain ⟨b, bs, hb, hd⟩ := decodeRune_encodeRune c (encodeRunes cs)
    rw [encodeRunes, hb] at hf ⊢
    obtain ⟨f, rfl⟩ : ∃ f, fuel = f + 1 := ⟨fuel - 1, by
      simp only [List.length_append, List.length_cons] at hf; omega⟩
    rw [List.cons_append, runesAux, hd]
    simp only [List.map_cons, List.cons.injEq, true_and]
    rw [show (b :: (bs ++ encodeRunes cs)).drop (b :: bs).length = encodeRunes cs from by
      rw [← List.cons_append, List.drop_left]]
    exact ih f (by simp only [List.length_append, List.length_cons] at hf; omega)

/-- Decoding inverts encoding: the text of an encoded text is that text. -/
theorem toText_encodeRunes (cs : List Char) : toText (encodeRunes cs) = cs := by
  simp [toText, runes, runesAux_encodeRunes cs _ (Nat.le_refl _), Function.comp_def]

theorem validUTF8_encodeRunes (cs : List Char) : validUTF8 (encodeRunes cs) = true := by
  simp [validUTF8, runes, runesAux_encodeRunes cs _ (Nat.le_refl _)]

theorem toValidUTF8_encodeRunes (cs : List Char) :
    toValidUTF8 (encodeRunes cs) = encodeRunes cs := by
  rw [toValidUTF8, toText_encodeRunes]


theorem toNat_ofNat (n : Nat) (h : n < 0xD800 ∨ (0xDFFF < n ∧ n < 0x110000)) :
    (Char.ofNat n).toNat = n := by
  have hv : n.isValidChar := h
  unfold Char.ofNat
  rw [dif_pos hv]
  simp only [Char.ofNatAux, Char.toNat, UInt32.toNat]
  simp [BitVec.toNat_ofNatLt]


theorem byte_eq (b : Byte) (n : Nat) (h : n = b.val) : byte n = b := by
  apply Fin.ext
  rw [byte_val, h]
  exact Nat.mod_eq_of_lt b.isLt

theorem encodeRune_of_decodeRune (b0 : Byte) (rest : GoString) (c : Char) (n : Nat)
    (h : decodeRune b0 rest = (some c, n)) :
    ∃ tail, b0 :: rest = encodeRune c ++ tail ∧ (b0 :: rest).drop n = tail := by
  have hb0 := b0.isLt
  unfold decodeRune at h
  by_cases h1 : b0.val < 0x80
  · rw [if_pos h1] at h
    simp only [Prod.mk.injEq, Option.some.injEq] at h
    obtain ⟨hc, hn⟩ := h
    subst hc; subst hn
    have ht := toNat_ofNat b0.val (by omega)
    refine ⟨rest, ?_, rfl⟩
    rw [encodeRune, ht, if_pos h1, byte_eq b0 _ rfl]
    rfl
  rw [if_neg h1] at h
  by_cases h2 : 0xC2 ≤ b0.val ∧ b0.val ≤ 0xDF
  · rw [if_pos h2] at h
    cases rest with
    | nil => simp at h
    | cons b1 r1 =>
      have hb1 := b1.isLt
      simp only at h
      by_cases hc1 : isCont b1 = true
      · rw [if_pos hc1] at h
        simp only [Prod.mk.injEq, Option.some.injEq] at h
        obtain ⟨hc, hn⟩ := h
        subst hc; subst hn
        simp only [isCont, Bool.and_eq_true, decide_eq_true_eq] at hc1
        have ht := toNat_ofNat (b0.val % 32 * 64 + b1.val % 64) (by omega)
        refine ⟨r1, ?_, rfl⟩
        rw [encodeRune, ht, if_neg (by omega), if_pos (by omega),
          byte_eq b0 _ (by omega), byte_eq b1 _ (by omega)]
        rfl
      · rw [if_neg hc1] at h; simp at h
  rw [if_neg h2] at h
  by_cases h3 : 0xE0 ≤ b0.val ∧ b0.val ≤ 0xEF
  · rw [if_pos h3] at h
    match rest, h with
    | [], h => simp at h
    | [_], h => simp at h
    | b1 :: b2 :: r2, h =>
      have hb1 := b1.isLt
      have hb2 := b2.isLt
      simp only at h
      by_cases hc : acceptLo b0 ≤ b1.val ∧ b1.val ≤ acceptHi b0 ∧ isCont b2 = true
      · rw [if_pos hc] at h
        simp only [Prod.mk.injEq, Option.some.injEq] at h
        obtain ⟨hcc, hn⟩ := h
        subst hcc; subst hn
        obtain ⟨hlo, hhi, hc2⟩ := hc
        simp only [isCont, Bool.and_eq_true, decide_eq_true_eq] at hc2
        have hlo2 : 0x80 ≤ b1.val ∧ (b0.val = 0xE0 → 0xA0 ≤ b1.val) := by
          unfold acceptLo at hlo; split_ifs at hlo <;> omega
        have hhi2 : b1.val ≤ 0xBF ∧ (b0.val = 0xED → b1.val ≤ 0x9F) := by
          unfold acceptHi at hhi; split_ifs at hhi <;> omega
        have ht := toNat_ofNat (b0.val % 16 * 4096 + b1.val % 64 * 64 + b2.val % 64) (by omega)
        refine ⟨r2, ?_, rfl⟩
        rw [encodeRune, ht, if_neg (by omega), if_neg (by omega), if_pos (by omega),
          byte_eq b0 _ (by omega), byte_eq b1 _ (by omega), byte_eq b2 _ (by omega)]
        rfl
      · rw [if_neg hc] at h; simp at h
  rw [if_neg h3] at h
  by_cases h4 : 0xF0 ≤ b0.val ∧ b0.val ≤ 0xF4
  · rw [if_pos h4] at h
    match rest, h with
    | [], h => simp at h
    | [_], h => simp at h
    | [_, _], h => simp at h
    | b1 :: b2 :: b3 :: r3, h =>
      have hb1 := b1.isLt
      have hb2 := b2.isLt
      have hb3 := b3.isLt
      simp only at h
      by_cases hc : acceptLo b0 ≤ b1.val ∧ b1.val ≤ acceptHi b0 ∧ isCont b2 = true
          ∧ isCont b3 = true
      · rw [if_pos hc] at h
        simp only [Prod.mk.injEq, Option.some.injEq] at h
        obtain ⟨hcc, hn⟩ := h
        subst hcc; subst hn
        obtain ⟨hlo, hhi, hc2, hc3⟩ := hc
        simp only [isCont, Bool.and_eq_true, decide_eq_true_eq] at hc2 hc3
        have hlo2 : 0x80 ≤ b1.val ∧ (b0.val = 0xF0 → 0x90 ≤ b1.val) := by
          unfold acceptLo at hlo; split_ifs at hlo <;> omega
        have hhi2 : b1.val ≤ 0xBF ∧ (b0.val = 0xF4 → b1.val ≤ 0x8F) := by
          unfold acceptHi at hhi; split_ifs at hhi <;> omega
        have ht := toNat_ofNat
          (b0.val % 8 * 262144 + b1.val % 64 * 4096 + b2.val % 64 * 64 + b3.val % 64) (by omega)
        refine ⟨r3, ?_, rfl⟩
        rw [encodeRune, ht, if_neg (by omega), if_neg (by omega), if_neg (by omega),
          byte_eq b0 _ (by omega), byte_eq b1 _ (by omega), byte_eq b2 _ (by omega),
          byte_eq b3 _ (by omega)]
        rfl
      · rw [if_neg hc] at h; simp at h
  · rw [if_neg h4] at h; simp at h

theorem decodeRune_size (b0 : Byte) (rest : GoString) :
    1 ≤ (decodeRune b0 rest).2 := by
  unfold decodeRune
  split_ifs <;> (try split) <;> (try split_ifs) <;> simp

theorem runesAux_valid (fuel : Nat) :
    ∀ s : GoString, s.length ≤ fuel → (runesAux fuel s).all Option.isSome = true →
      encodeRunes ((runesAux fuel s).map fun r => r.getD (Char.ofNat 0xFFFD)) = s := by
  induction fuel with
  | zero =>
    intro s hl _
    cases s with
    | nil => rfl
    | cons b bs => simp at hl
  | succ f ih =>
    intro s hl hv
    cases s with
    | nil => rfl
    | cons b bs =>
      rw [runesAux] at hv ⊢
      simp only [List.all_cons, Bool.and_eq_true] at hv
      obtain ⟨hv1, hv2⟩ := hv
      cases hd : decodeRune b bs with
      | mk r n =>
        rw [hd] at hv1 hv2
        cases r with
        | none => simp at hv1
        | some c =>
          obtain ⟨tail, ht, hdrop⟩ := encodeRune_of_decodeRune b bs c n hd
          have hn := decodeRune_size b bs
          rw [hd] at hn
          simp only at hn hv2 ⊢
          rw [hdrop] at hv2 ⊢
          have hlt : tail.length ≤ f := by
            have : tail.length = (b :: bs).length - n := by rw [← hdrop, List.length_drop]
            simp only [List.length_cons] at hl this; omega
          simp only [List.map_cons, Option.getD_some, encodeRunes]
          rw [ih tail hlt hv2, ht]

/-- A Go string that is valid UTF-8 is the encoding of its text. -/
theorem toValidUTF8_of_valid (s : GoString) (h : validUTF8 s = true) : toValidUTF8 s = s :=
  runesAux_valid s.length s (Nat.le_refl _) h


/-! ## The JSON text layer: parsing inverts rendering -/

theorem unquote_cons (pending : Option Nat) (c : Char) (cs : List Char) (h1 : c ≠ '"') (h2 : c ≠ '\\')
    (h3 : ¬ c.toNat < 0x20) :
    unquote pending (c :: cs) = (unquote none cs).map fun p => flush pending (c :: p.1, p.2) := by
  rw [unquote.eq_def]
  simp only [h1, h2, h3, if_false]

theorem unquote_short (pending : Option Nat) (e : Char) (cs : List Char) (h : e ≠ 'u') :
    unquote pending ('\\' :: e :: cs) =
      if e = '"' ∨ e = '\\' ∨ e = '/' then
        (unquote none cs).map fun p => flush pending (e :: p.1, p.2)
      else if e = 'b' then (unquote none cs).map fun p => flush pending ('\x08' :: p.1, p.2)
      else if e = 'f' then (unquote none cs).map fun p => flush pending ('\x0c' :: p.1, p.2)
      else if e = 'n' then (unquote none cs).map fun p => flush pending ('\n' :: p.1, p.2)
      else if e = 'r' then (unquote none cs).map fun p => flush pending ('\r' :: p.1, p.2)
      else if e = 't' then (unquote none cs).map fun p => flush pending ('\t' :: p.1, p.2)
      else none := by
  rw [unquote.eq_def]
  simp only [h, if_false]
  rfl

theorem hexVal_hexDigit (n : Nat) (h : n < 16) : hexVal (hexDigit n) = some n := by
  interval_cases n <;> rfl

theorem getu4_low (n : Nat) (h : n < 256) :
    getu4 '0' '0' (hexDigit (n / 16)) (hexDigit (n % 16)) = some n := by
  have h1 : hexVal '0' = some 0 := rfl
  have h2 := hexVal_hexDigit (n / 16) (by omega)
  have h3 := hexVal_hexDigit (n % 16) (by omega)
  simp only [getu4, h1, h2, h3]
  congr 1
  omega

theorem unquote_u (h1 h2 h3 h4 : Char) (cs : List Char) (rr : Nat)
    (hg : getu4 h1 h2 h3 h4 = some rr) (hs : isSurrogate rr = false) :
    unquote none ('\\' :: 'u' :: h1 :: h2 :: h3 :: h4 :: cs) =
      (unquote none cs).map fun p => (Char.ofNat rr :: p.1, p.2) := by
  rw [unquote.eq_7]
  simp [hg, hs]

theorem unquote_escapeRune (c : Char) (tail : List Char) :
    unquote none (escapeRune c ++ tail) = (unquote none tail).map fun p => (c :: p.1, p.2) := by
  unfold escapeRune
  split_ifs with h1 h2 h3 h4 h5 h6 h7 h8 h9
  · subst h1; exact (unquote_short none _ _ (by decide)).trans (by simp [flush])
  · subst h2; exact (unquote_short none _ _ (by decide)).trans (by simp [flush])
  · subst h3; exact (unquote_short none _ _ (by decide)).trans (by simp [flush])
  · subst h4; exact (unquote_short none _ _ (by decide)).trans (by simp [flush])
  · subst h5; exact (unquote_short none _ _ (by decide)).trans (by simp [flush])
  · subst h6; exact (unquote_short none _ _ (by decide)).trans (by simp [flush])
  · subst h7; exact (unquote_short none _ _ (by decide)).trans (by simp [flush])
  · have hlt : c.toNat < 128 := by
      rcases h8 with h | h | h | h
      · omega
      · subst h; decide
      · subst h; decide
      · subst h; decide
    have hs : isSurrogate c.toNat = false := by
      simp [isSurrogate]; omega
    have := unquote_u _ _ _ _ tail _ (getu4_low c.toNat (by omega)) hs
    rw [Char.ofNat_toNat] at this
    exact this
  · have hc : c = Char.ofNat 0x2028 ∨ c = Char.ofNat 0x2029 := by
      rcases h9 with h | h
      · left; rw [← h, Char.ofNat_toNat]
      · right; rw [← h, Char.ofNat_toNat]
    rcases hc with rfl | rfl
    · exact unquote_u _ _ _ _ tail 0x2028 rfl rfl
    · exact unquote_u _ _ _ _ tail 0x2029 rfl rfl
  · have h20 : ¬ c.toNat < 0x20 := fun h => h8 (Or.inl h)
    rw [List.singleton_append, unquote_cons none c tail h1 h2 h20]
    rfl

theorem unquote_escapeAll (s rest : List Char) :
    unquote none (escapeAll s ++ '"' :: rest) = some (s, rest) := by
  induction s with
  | nil => rw [escapeAll, List.nil_append, unquote.eq_def]; simp [flush]
  | cons c cs ih => rw [escapeAll, List.append_assoc, unquote_escapeRune, ih]; rfl

theorem unquote_escapeItems (rs : List (Option Char)) (rest : List Char) :
    unquote none (escapeItems rs ++ '"' :: rest)
      = some (rs.map (fun r => r.getD (Char.ofNat 0xFFFD)), rest) := by
  induction rs with
  | nil => rw [escapeItems, List.nil_append, unquote.eq_def]; simp [flush]
  | cons r rs ih =>
    cases r with
    | some c => rw [escapeItems, escapeItem, List.append_assoc, unquote_escapeRune, ih]; rfl
    | none =>
      rw [escapeItems, escapeItem]
      simp only [List.cons_append, List.nil_append]
      rw [unquote_u 'f' 'f' 'f' 'd' _ 0xFFFD rfl rfl, ih]
      rfl

theorem parseValue_string (fuel depth : Nat) (s : GoString) (rest : List Char) :
    parseValue (fuel + 1) depth (quote s ++ rest)
      = some (Json.string (toValidUTF8 s), rest) := by
  rw [quote, List.cons_append, List.append_assoc, List.singleton_append, parseValue.eq_def]
  simp [unquote_escapeItems, toValidUTF8, toText]

theorem render_true : (Json.bool true).render = ['t', 'r', 'u', 'e'] := rfl

theorem render_false : (Json.bool false).render = ['f', 'a', 'l', 's', 'e'] := rfl

theorem parseValue_bool (fuel depth : Nat) (b : Bool) (rest : List Char) :
    parseValue (fuel + 1) depth ((Json.bool b).render ++ rest) = some (Json.bool b, rest) := by
  cases b <;> simp [render_true, render_false, parseValue, expect]

theorem parseValue_scalar (fuel depth : Nat) (v : Json) (hv : isScalar v = true)
    (rest : List Char) :
    parseValue (fuel + 1) depth (v.render ++ rest) = some (v.toValid, rest) := by
  cases v with
  | bool b => exact parseValue_bool fuel depth b rest
  | string s => rw [Json.render]; exact parseValue_string fuel depth s rest
  | _ => simp [isScalar] at hv

theorem skipSpace_quoteKey (k : String) (rest : List Char) :
    skipSpace (quoteKey k ++ rest) = quoteKey k ++ rest := by
  simp [quoteKey, skipSpace, isSpace]

theorem skipSpace_scalar (v : Json) (hv : isScalar v = true) (rest : List Char) :
    skipSpace (v.render ++ rest) = v.render ++ rest := by
  cases v with
  | bool b => cases b <;> simp [render_true, render_false, skipSpace, isSpace]
  | string s => rw [Json.render]; simp [quote, skipSpace, isSpace]
  | _ => simp [isScalar] at hv

theorem renderMembers_cons (k : String) (v : Json) (ms : List (String × Json)) :
    renderMembers ((k, v) :: ms) =
      quoteKey k ++ ':' ::
        (v.render ++ (match ms with | [] => [] | _ :: _ => ',' :: renderMembers ms)) := by
  cases ms <;> simp [renderMembers]

/-- The members of an object as the scanner reads them back. -/
theorem parseMembers_render (ms : List (String × Json)) :
    ∀ (fuel depth : Nat) (acc : List (String × Json)) (rest : List Char),
      ms ≠ [] → (∀ kv ∈ ms, isScalar kv.2 = true) → ms.length + 1 ≤ fuel →
      parseMembers fuel depth (renderMembers ms ++ '\x7d' :: rest) acc
        = some (Json.object (acc ++ ms.map fun kv => (kv.1, kv.2.toValid)), rest) := by
  induction ms with
  | nil => intro _ _ _ _ h; exact absurd rfl h
  | cons kv ms ih =>
    intro fuel depth acc rest _ hs hf
    obtain ⟨k, v⟩ := kv
    have hv : isScalar v = true := hs (k, v) (List.mem_cons_self _ _)
    obtain ⟨f, rfl⟩ : ∃ f, fuel = f + 1 := ⟨fuel - 1, by simp at hf; omega⟩
    obtain ⟨g, rfl⟩ : ∃ g, f = g + 1 := ⟨f - 1, by simp at hf; omega⟩
    cases ms with
    | nil =>
      rw [renderMembers_cons, quoteKey]
      simp only [List.cons_append, List.append_assoc, List.nil_append]
      rw [parseMembers.eq_def]
      simp [unquote_escapeAll, skipSpace, isSpace, skipSpace_scalar v hv,
        parseValue_scalar g depth v hv]
    | cons kv2 ms2 =>
      have ih2 := ih (g + 1) depth (acc ++ [(k, v.toValid)]) rest (by simp)
        (fun kv h => hs kv (List.mem_cons_of_mem _ h)) (by simp at hf ⊢; omega)
      obtain ⟨k2, v2⟩ := kv2
      have hq : skipSpace (renderMembers ((k2, v2) :: ms2) ++ '\x7d' :: rest)
          = renderMembers ((k2, v2) :: ms2) ++ '\x7d' :: rest := by
        rw [renderMembers_cons, List.append_assoc]; exact skipSpace_quoteKey _ _
      rw [renderMembers_cons, quoteKey]
      simp only [List.cons_append, List.append_assoc, List.nil_append]
      rw [parseMembers.eq_def]
      simp [unquote_escapeAll, skipSpace, isSpace, skipSpace_scalar v hv,
        parseValue_scalar g depth v hv, hq, ih2]

theorem length_le_renderMembers (ms : List (String × Json)) :
    ms.length ≤ (renderMembers ms).length := by
  induction ms with
  | nil => simp
  | cons kv ms ih =>
    obtain ⟨k, v⟩ := kv
    rw [renderMembers_cons]
    cases ms with
    | nil => simp [quoteKey]
    | cons kv2 ms2 => simp only [List.length_append, List.length_cons, quoteKey] at ih ⊢; omega

theorem renderMembers_head (ms : List (String × Json)) (hne : ms ≠ []) :
    ∃ t, renderMembers ms = '"' :: t := by
  cases ms with
  | nil => exact absurd rfl hne
  | cons kv ms1 =>
    obtain ⟨k, v⟩ := kv
    rw [renderMembers_cons, quoteKey]
    exact ⟨_, rfl⟩

theorem parseValue_object_open (fuel depth : Nat) (t : List Char)
    (hd : depth + 1 ≤ maxNestingDepth) :
    parseValue (fuel + 1) depth ('\x7b' :: '"' :: t)
      = parseMembers fuel (depth + 1) ('"' :: t) [] := by
  rw [parseValue.eq_def]
  have : ¬ (maxNestingDepth < depth + 1) := by omega
  simp [skipSpace, isSpace, this]

theorem parseText_render_object (ms : List (String × Json)) (hne : ms ≠ [])
    (hs : ∀ kv ∈ ms, isScalar kv.2 = true) :
    parseText (Json.object ms).render
      = some (Json.object (ms.map fun kv => (kv.1, kv.2.toValid))) := by
  have hlen := length_le_renderMembers ms
  obtain ⟨t, ht⟩ := renderMembers_head ms hne
  have e : '"' :: (t ++ ['\x7d']) = renderMembers ms ++ '\x7d' :: [] := by rw [ht]; rfl
  have hsk : skipSpace ('\x7b' :: '"' :: (t ++ ['\x7d'])) = '\x7b' :: '"' :: (t ++ ['\x7d']) := by
    simp [skipSpace, isSpace]
  simp only [parseText, Json.render, ht, List.cons_append, hsk]
  rw [parseValue_object_open _ _ _ (by decide), e,
    parseMembers_render ms _ _ _ _ hne hs (by
      have hlen2 := hlen
      rw [ht] at hlen2
      simp only [List.length_cons, List.length_append, List.length_nil] at hlen hlen2 ⊢
      omega)]
  simp [skipSpace]

/-- The text json.Marshal writes for an object of booleans and strings is
read back as that object, each invalid byte of a string replaced. -/
theorem parseJson_render_object (ms : List (String × Json)) (hne : ms ≠ [])
    (hs : ∀ kv ∈ ms, isScalar kv.2 = true) :
    parseJson (encodeRunes (Json.object ms).render)
      = some (Json.object (ms.map fun kv => (kv.1, kv.2.toValid))) := by
  rw [parseJson, toText_encodeRunes, parseText_render_object ms hne hs]

/-! ## The recursion bound of the scanner is never exhausted -/

theorem skipSpace_length_le (cs : List Char) : (skipSpace cs).length ≤ cs.length := by
  induction cs with
  | nil => simp [skipSpace]
  | cons c cs ih =>
    rw [skipSpace]
    split_ifs
    · exact Nat.le_succ_of_le ih
    · exact Nat.le_refl _

theorem expect_length (l cs r : List Char) (h : expect l cs = some r) :
    r.length ≤ cs.length := by
  induction l generalizing cs with
  | nil => simp [expect] at h; subst h; exact Nat.le_refl _
  | cons x l ih =>
    cases cs with
    | nil => simp [expect] at h
    | cons c cs =>
      rw [expect] at h
      split_ifs at h
      exact Nat.le_succ_of_le (ih cs h)

theorem spanDigits_length (cs : List Char) : (spanDigits cs).2.length ≤ cs.length := by
  induction cs with
  | nil => simp [spanDigits]
  | cons c cs ih =>
    rw [spanDigits]
    split_ifs
    · exact Nat.le_succ_of_le ih
    · exact Nat.le_refl _

theorem scanInt_length (cs i r : List Char) (h : scanInt cs = some (i, r)) :
    r.length < cs.length := by
  cases cs with
  | nil => simp [scanInt] at h
  | cons d t =>
    rw [scanInt] at h
    split_ifs at h
    · simp at h; rw [← h.2]; exact Nat.lt_succ_self _
    · simp at h; rw [← h.2]; exact Nat.lt_succ_of_le (spanDigits_length t)

theorem scanFrac_length (cs f r : List Char) (h : scanFrac cs = some (f, r)) :
    r.length ≤ cs.length := by
  cases cs with
  | nil => simp [scanFrac] at h; rw [← h.2]
  | cons c t =>
    rw [scanFrac] at h
    split_ifs at h
    · simp at h; rw [← h.2]; exact Nat.le_succ_of_le (spanDigits_length t)
    · simp at h; rw [← h.2]

theorem scanExpDigits_length (mark cs e r : List Char)
    (h : scanExpDigits mark cs = some (e, r)) : r.length ≤ cs.length := by
  rw [scanExpDigits] at h
  split_ifs at h
  simp at h; rw [← h.2]; exact spanDigits_length cs

theorem scanExp_length (cs e r : List Char) (h : scanExp cs = some (e, r)) :
    r.length ≤ cs.length := by
  cases cs with
  | nil => simp [scanExp] at h; rw [← h.2]
  | cons c t =>
    cases t with
    | nil =>
      simp only [scanExp] at h
      split_ifs at h
      simp at h; rw [← h.2]
    | cons s t1 =>
      simp only [scanExp] at h
      split_ifs at h
      · have := scanExpDigits_length _ _ _ _ h
        simp only [List.length_cons]; omega
      · have := scanExpDigits_length _ _ _ _ h
        simp only [List.length_cons] at this ⊢; omega
      · simp at h; rw [← h.2]

theorem scanUnsigned_length (cs n r : List Char) (h : scanUnsigned cs = some (n, r)) :
    r.length < cs.length := by
  rw [scanUnsigned] at h
  cases hi : scanInt cs with
  | none => simp [hi] at h
  | some p =>
    obtain ⟨i, r0⟩ := p
    simp only [hi] at h
    cases hf : scanFrac r0 with
    | none => simp [hf] at h
    | some p1 =>
      obtain ⟨f, r1⟩ := p1
      simp only [hf] at h
      cases he : scanExp r1 with
      | none => simp [he] at h
      | some p2 =>
        obtain ⟨e, r2⟩ := p2
        simp only [he] at h
        simp at h
        rw [← h.2]
        have h1 := scanInt_length _ _ _ hi
        have h2 := scanFrac_length _ _ _ hf
        have h3 := scanExp_length _ _ _ he
        omega

theorem scanNumber_length (cs n r : List Char) (h : scanNumber cs = some (n, r)) :
    r.length < cs.length := by
  cases cs with
  | nil => simp [scanNumber] at h
  | cons c t =>
    rw [scanNumber] at h
    split_ifs at h
    · cases hu : scanUnsigned t with
      | none => simp [hu] at h
      | some p =>
        simp [hu] at h
        rw [← h.2]
        have := scanUnsigned_length _ _ _ hu
        simp only [List.length_cons]; omega
    · exact scanUnsigned_length _ _ _ h

theorem flush_snd (pending : Option Nat) (p : List Char × List Char) :
    (flush pending p).2 = p.2 := by
  cases pending <;> rfl

theorem map_snd_eq {f : List Char × List Char → List Char × List Char}
    {o : Option (List Char × List Char)} {s r : List Char}
    (h : o.map f = some (s, r)) (hf : ∀ p, (f p).2 = p.2) : ∃ s1, o = some (s1, r) := by
  cases o with
  | none => simp at h
  | some p =>
    simp only [Option.map_some', Option.some.injEq] at h
    have h2 := hf p
    rw [h] at h2
    obtain ⟨p1, p2⟩ := p
    simp only at h2
    exact ⟨p1, by rw [h2]⟩

theorem unquote_quote (pending : Option Nat) (t : List Char) :
    unquote pending ('"' :: t) = some (flush pending ([], t)) := by
  rw [unquote.eq_def]
  simp

theorem unquote_control (pending : Option Nat) (c : Char) (t : List Char) (h1 : c ≠ '"')
    (h2 : c ≠ '\\') (h3 : c.toNat < 0x20) : unquote pending (c :: t) = none := by
  rw [unquote.eq_def]
  simp only [h1, h2, h3, if_false, if_true]

theorem unquote_u_short (pending : Option Nat) (t : List Char) (h : t.length < 4) :
    unquote pending ('\\' :: 'u' :: t) = none := by
  match t, h with
  | [], _ => simp [unquote]
  | [_], _ => simp [unquote]
  | [_, _], _ => simp [unquote]
  | [_, _, _], _ => simp [unquote]

theorem unquote_length_aux (n : Nat) :
    ∀ (cs : List Char), cs.length ≤ n → ∀ (pending : Option Nat) (s r : List Char),
      unquote pending cs = some (s, r) → r.length < cs.length := by
  induction n with
  | zero =>
    intro cs hn pending s r h
    cases cs with
    | nil => simp [unquote] at h
    | cons c t => simp at hn
  | succ n ih =>
    intro cs hn pending s r h
    cases cs with
    | nil => simp [unquote] at h
    | cons c t =>
      simp only [List.length_cons] at hn
      have hstep : ∀ (q : Option Nat) (t1 : List Char) (s1 : List Char),
          t1.length ≤ t.length → unquote q t1 = some (s1, r) → r.length < (c :: t).length := by
        intro q t1 s1 hle hu
        have := ih t1 (by omega) q s1 r hu
        simp only [List.length_cons]; omega
      by_cases h1 : c = '"'
      · subst h1
        rw [unquote_quote] at h
        simp only [Option.some.injEq] at h
        have := flush_snd pending ([], t)
        rw [h] at this
        simp only at this
        rw [this]; exact Nat.lt_succ_self _
      by_cases h2 : c = '\\'
      · subst h2
        cases t with
        | nil => simp [unquote] at h
        | cons e t1 =>
          by_cases hu : e = 'u'
          · subst hu
            match t1, h with
            | [], h => simp [unquote] at h
            | [_], h => simp [unquote] at h
            | [_, _], h => simp [unquote] at h
            | [_, _, _], h => simp [unquote] at h
            | a1 :: a2 :: a3 :: a4 :: t2, h =>
              rw [unquote.eq_7] at h
              simp only [show ('\\' : Char) ≠ '"' from by decide, show ('u' : Char) ≠ '"' from by decide,
                show ('u' : Char) ≠ '\\' from by decide, show ('u' : Char) ≠ '/' from by decide,
                show ('u' : Char) ≠ 'b' from by decide, show ('u' : Char) ≠ 'f' from by decide,
                show ('u' : Char) ≠ 'n' from by decide, show ('u' : Char) ≠ 'r' from by decide,
                show ('u' : Char) ≠ 't' from by decide, if_false, if_true, or_self] at h
              cases hg : getu4 a1 a2 a3 a4 with
              | none => simp [hg] at h
              | some rr =>
                simp only [hg] at h
                cases pending with
                | none =>
                  simp only at h
                  split_ifs at h
                  · exact hstep _ t2 s (by simp only [List.length_cons]; omega) h
                  · obtain ⟨s1, hs1⟩ := map_snd_eq h (fun p => rfl)
                    exact hstep _ t2 s1 (by simp only [List.length_cons]; omega) hs1
                | some hi =>
                  simp only at h
                  split_ifs at h
                  · obtain ⟨s1, hs1⟩ := map_snd_eq h (fun p => rfl)
                    exact hstep _ t2 s1 (by simp only [List.length_cons]; omega) hs1
                  · obtain ⟨s1, hs1⟩ := map_snd_eq h (fun p => rfl)
                    exact hstep _ t2 s1 (by simp only [List.length_cons]; omega) hs1
                  · obtain ⟨s1, hs1⟩ := map_snd_eq h (fun p => rfl)
                    exact hstep _ t2 s1 (by simp only [List.length_cons]; omega) hs1
          · rw [unquote_short pending e t1 hu] at h
            split_ifs at h
            all_goals
              obtain ⟨s1, hs1⟩ := map_snd_eq h (fun p => flush_snd pending _)
              exact hstep _ t1 s1 (by simp only [List.length_cons]; omega) hs1
      by_cases h3 : c.toNat < 0x20
      · rw [unquote_control pending c t h1 h2 h3] at h
        cases h
      · rw [unquote_cons pending c t h1 h2 h3] at h
        obtain ⟨s1, hs1⟩ := map_snd_eq h (fun p => flush_snd pending _)
        exact hstep none t s1 (Nat.le_refl _) hs1

theorem unquote_length (pending : Option Nat) (cs s r : List Char)
    (h : unquote pending cs = some (s, r)) : r.length < cs.length :=
  unquote_length_aux cs.length cs (Nat.le_refl _) pending s r h

theorem parseValue_zero (d : Nat) (cs : List Char) : parseValue 0 d cs = none := by
  rw [parseValue]

theorem parseElems_zero (d : Nat) (cs : List Char) (acc : List Json) :
    parseElems 0 d cs acc = none := by
  rw [parseElems]

theorem parseMembers_zero (d : Nat) (cs : List Char) (acc : List (String × Json)) :
    parseMembers 0 d cs acc = none := by
  rw [parseMembers]

theorem parseValue_succ (f d : Nat) (c : Char) (r : List Char) :
    parseValue (f + 1) d (c :: r) =
      if c = '"' then (unquote none r).map fun p => (Json.string (encodeRunes p.1), p.2)
      else if c = '[' then
        if d + 1 > maxNestingDepth then none
        else
          match skipSpace r with
          | [] => none
          | c1 :: r1 =>
            if c1 = ']' then some (Json.array [], r1)
            else parseElems f (d + 1) (c1 :: r1) []
      else if c = '\x7b' then
        if d + 1 > maxNestingDepth then none
        else
          match skipSpace r with
          | [] => none
          | c1 :: r1 =>
            if c1 = '\x7d' then some (Json.object [], r1)
            else parseMembers f (d + 1) (c1 :: r1) []
      else if c = 't' then (expect ['r', 'u', 'e'] r).map fun r1 => (Json.bool true, r1)
      else if c = 'f' then (expect ['a', 'l', 's', 'e'] r).map fun r1 => (Json.bool false, r1)
      else if c = 'n' then (expect ['u', 'l', 'l'] r).map fun r1 => (Json.null, r1)
      else (scanNumber (c :: r)).map fun p => (Json.number (String.mk p.1), p.2) := by
  rfl

theorem parseElems_succ (f d : Nat) (cs : List Char) (acc : List Json) :
    parseElems (f + 1) d cs acc =
      match parseValue f d cs with
      | none => none
      | some (v, r) =>
        match skipSpace r with
        | [] => none
        | c :: r1 =>
          if c = ',' then parseElems f d (skipSpace r1) (acc ++ [v])
          else if c = ']' then some (Json.array (acc ++ [v]), r1)
          else none := by
  rfl

theorem parseMembers_succ (f d : Nat) (q : Char) (r : List Char) (acc : List (String × Json)) :
    parseMembers (f + 1) d (q :: r) acc =
      if q = '"' then
        match unquote none r with
        | none => none
        | some (k, r1) =>
          match skipSpace r1 with
          | [] => none
          | col :: r2 =>
            if col = ':' then
              match parseValue f d (skipSpace r2) with
              | none => none
              | some (v, r3) =>
                match skipSpace r3 with
                | [] => none
                | c :: r4 =>
                  if c = ',' then parseMembers f d (skipSpace r4) (acc ++ [(String.mk k, v)])
                  else if c = '\x7d' then some (Json.object (acc ++ [(String.mk k, v)]), r4)
                  else none
            else none
      else none := by
  rfl

theorem map_pair_eq {α β : Type} {f : α × List Char → β × List Char}
    {o : Option (α × List Char)} {v : β} {r : List Char}
    (h : o.map f = some (v, r)) (hf : ∀ p, (f p).2 = p.2) : ∃ a, o = some (a, r) := by
  cases o with
  | none => simp at h
  | some p =>
    simp only [Option.map_some', Option.some.injEq] at h
    have h2 := hf p
    rw [h] at h2
    obtain ⟨p1, p2⟩ := p
    simp only at h2
    exact ⟨p1, by rw [h2]⟩

theorem map_rest_eq {β : Type} {b : β} {o : Option (List Char)} {v : β} {r : List Char}
    (h : o.map (fun r1 => (b, r1)) = some (v, r)) : o = some r := by
  cases o with
  | none => simp at h
  | some p =>
    simp only [Option.map_some', Option.some.injEq, Prod.mk.injEq] at h
    rw [h.2]

theorem parseValue_step (f : Nat)
    (hE : ∀ d cs acc v r, parseElems f d cs acc = some (v, r) →
      r.length < cs.length ∧ ∀ g, cs.length - r.length ≤ g → parseElems g d cs acc = some (v, r))
    (hM : ∀ d cs acc v r, parseMembers f d cs acc = some (v, r) →
      r.length < cs.length ∧
        ∀ g, cs.length - r.length ≤ g → parseMembers g d cs acc = some (v, r)) :
    ∀ d cs v r, parseValue (f + 1) d cs = some (v, r) →
      r.length < cs.length ∧ ∀ g, cs.length - r.length ≤ g → parseValue g d cs = some (v, r) := by
  intro d cs v r h
  cases cs with
  | nil => rw [parseValue] at h; cases h
  | cons c t =>
    have hsk := skipSpace_length_le t
    rw [parseValue_succ] at h
    by_cases h1 : c = '"'
    · simp only [h1, if_true] at h
      obtain ⟨s1, hs1⟩ := map_pair_eq h (fun p => rfl)
      have hl := unquote_length _ _ _ _ hs1
      refine ⟨by simp only [List.length_cons]; omega, fun g hg => ?_⟩
      obtain ⟨g1, rfl⟩ : ∃ g1, g = g1 + 1 := ⟨g - 1, by simp only [List.length_cons] at hg; omega⟩
      rw [parseValue_succ]
      simp only [h1, if_true]
      exact h
    by_cases h2 : c = '['
    · rw [if_neg h1, if_pos h2] at h
      by_cases hd : d + 1 > maxNestingDepth
      · rw [if_pos hd] at h; cases h
      rw [if_neg hd] at h
      cases hs : skipSpace t with
      | nil => rw [hs] at h; cases h
      | cons c1 r1 =>
        rw [hs] at hsk
        rw [hs] at h
        simp only at h
        by_cases h3 : c1 = ']'
        · rw [if_pos h3] at h
          simp only [Option.some.injEq, Prod.mk.injEq] at h
          obtain ⟨hv, hr⟩ := h
          subst hr
          simp only [List.length_cons] at hsk ⊢
          refine ⟨by omega, fun g hg => ?_⟩
          obtain ⟨g1, rfl⟩ : ∃ g1, g = g1 + 1 := ⟨g - 1, by omega⟩
          rw [parseValue_succ, if_neg h1, if_pos h2, if_neg hd, hs]
          simp only [if_pos h3, hv]
        · rw [if_neg h3] at h
          obtain ⟨hl, hg⟩ := hE _ _ _ _ _ h
          simp only [List.length_cons] at hsk hl hg ⊢
          refine ⟨by omega, fun g hg1 => ?_⟩
          obtain ⟨g1, rfl⟩ : ∃ g1, g = g1 + 1 := ⟨g - 1, by omega⟩
          rw [parseValue_succ, if_neg h1, if_pos h2, if_neg hd, hs]
          simp only [if_neg h3]
          exact hg g1 (by omega)
    by_cases h4 : c = '\x7b'
    · rw [if_neg h1, if_neg h2, if_pos h4] at h
      by_cases hd : d + 1 > maxNestingDepth
      · rw [if_pos hd] at h; cases h
      rw [if_neg hd] at h
      cases hs : skipSpace t with
      | nil => rw [hs] at h; cases h
      | cons c1 r1 =>
        rw [hs] at hsk
        rw [hs] at h
        simp only at h
        by_cases h3 : c1 = '\x7d'
        · rw [if_pos h3] at h
          simp only [Option.some.injEq, Prod.mk.injEq] at h
          obtain ⟨hv, hr⟩ := h
          subst hr
          simp only [List.length_cons] at hsk ⊢
          refine ⟨by omega, fun g hg => ?_⟩
          obtain ⟨g1, rfl⟩ : ∃ g1, g = g1 + 1 := ⟨g - 1, by omega⟩
          rw [parseValue_succ, if_neg h1, if_neg h2, if_pos h4, if_neg hd, hs]
          simp only [if_pos h3, hv]
        · rw [if_neg h3] at h
          obtain ⟨hl, hg⟩ := hM _ _ _ _ _ h
          simp only [List.length_cons] at hsk hl hg ⊢
          refine ⟨by omega, fun g hg1 => ?_⟩
          obtain ⟨g1, rfl⟩ : ∃ g1, g = g1 + 1 := ⟨g - 1, by omega⟩
          rw [parseValue_succ, if_neg h1, if_neg h2, if_pos h4, if_neg hd, hs]
          simp only [if_neg h3]
          exact hg g1 (by omega)
    by_cases h5 : c = 't'
    · rw [if_neg h1, if_neg h2, if_neg h4, if_pos h5] at h
      have hl := expect_length _ _ _ (map_rest_eq h)
      simp only [List.length_cons]
      refine ⟨by omega, fun g hg => ?_⟩
      obtain ⟨g1, rfl⟩ : ∃ g1, g = g1 + 1 := ⟨g - 1, by omega⟩
      rw [parseValue_succ, if_neg h1, if_neg h2, if_neg h4, if_pos h5]
      exact h
    by_cases h6 : c = 'f'
    · rw [if_neg h1, if_neg h2, if_neg h4, if_neg h5, if_pos h6] at h
      have hl := expect_length _ _ _ (map_rest_eq h)
      simp only [List.length_cons]
      refine ⟨by omega, fun g hg => ?_⟩
      obtain ⟨g1, rfl⟩ : ∃ g1, g = g1 + 1 := ⟨g - 1, by omega⟩
      rw [parseValue_succ, if_neg h1, if_neg h2, if_neg h4, if_neg h5, if_pos h6]
      exact h
    by_cases h7 : c = 'n'
    · rw [if_neg h1, if_neg h2, if_neg h4, if_neg h5, if_neg h6, if_pos h7] at h
      have hl := expect_length _ _ _ (map_rest_eq h)
      simp only [List.length_cons]
      refine ⟨by omega, fun g hg => ?_⟩
      obtain ⟨g1, rfl⟩ : ∃ g1, g = g1 + 1 := ⟨g - 1, by omega⟩
      rw [parseValue_succ, if_neg h1, if_neg h2, if_neg h4, if_neg h5, if_neg h6, if_pos h7]
      exact h
    · rw [if_neg h1, if_neg h2, if_neg h4, if_neg h5, if_neg h6, if_neg h7] at h
      obtain ⟨n1, hn1⟩ := map_pair_eq h (fun p => rfl)
      have hl := scanNumber_length _ _ _ hn1
      refine ⟨hl, fun g hg => ?_⟩
      obtain ⟨g1, rfl⟩ : ∃ g1, g = g1 + 1 := ⟨g - 1, by omega⟩
      rw [parseValue_succ, if_neg h1, if_neg h2, if_neg h4, if_neg h5, if_neg h6, if_neg h7]
      exact h

theorem parseElems_step (f : Nat)
    (hV : ∀ d cs v r, parseValue f d cs = some (v, r) →
      r.length < cs.length ∧ ∀ g, cs.length - r.length ≤ g → parseValue g d cs = some (v, r))
    (hE : ∀ d cs acc v r, parseElems f d cs acc = some (v, r) →
      r.length < cs.length ∧ ∀ g, cs.length - r.length ≤ g → parseElems g d cs acc = some (v, r)) :
    ∀ d cs acc v r, parseElems (f + 1) d cs acc = some (v, r) →
      r.length < cs.length ∧
        ∀ g, cs.length - r.length ≤ g → parseElems g d cs acc = some (v, r) := by
  intro d cs acc v r h
  rw [parseElems_succ] at h
  cases hv : parseValue f d cs with
  | none => rw [hv] at h; cases h
  | some p =>
    obtain ⟨v1, r0⟩ := p
    rw [hv] at h
    simp only at h
    obtain ⟨hl0, hg0⟩ := hV _ _ _ _ hv
    have hsk := skipSpace_length_le r0
    cases hs : skipSpace r0 with
    | nil => rw [hs] at h; cases h
    | cons c r1 =>
      rw [hs] at hsk
      rw [hs] at h
      simp only at h
      have hsk1 := skipSpace_length_le r1
      simp only [List.length_cons] at hsk
      by_cases h1 : c = ','
      · rw [if_pos h1] at h
        obtain ⟨hl, hg⟩ := hE _ _ _ _ _ h
        refine ⟨by omega, fun g hg1 => ?_⟩
        obtain ⟨g1, rfl⟩ : ∃ g1, g = g1 + 1 := ⟨g - 1, by omega⟩
        rw [parseElems_succ, hg0 g1 (by omega)]
        simp only [hs, if_pos h1]
        exact hg g1 (by omega)
      · rw [if_neg h1] at h
        by_cases h2 : c = ']'
        · rw [if_pos h2] at h
          simp only [Option.some.injEq, Prod.mk.injEq] at h
          obtain ⟨hv1, hr⟩ := h
          subst hr
          refine ⟨by omega, fun g hg1 => ?_⟩
          obtain ⟨g1, rfl⟩ : ∃ g1, g = g1 + 1 := ⟨g - 1, by omega⟩
          rw [parseElems_succ, hg0 g1 (by omega)]
          simp only [hs, if_neg h1, if_pos h2, hv1]
        · rw [if_neg h2] at h; cases h

theorem parseMembers_step (f : Nat)
    (hV : ∀ d cs v r, parseValue f d cs = some (v, r) →
      r.length < cs.length ∧ ∀ g, cs.length - r.length ≤ g → parseValue g d cs = some (v, r))
    (hM : ∀ d cs acc v r, parseMembers f d cs acc = some (v, r) →
      r.length < cs.length ∧
        ∀ g, cs.length - r.length ≤ g → parseMembers g d cs acc = some (v, r)) :
    ∀ d cs acc v r, parseMembers (f + 1) d cs acc = some (v, r) →
      r.length < cs.length ∧
        ∀ g, cs.length - r.length ≤ g → parseMembers g d cs acc = some (v, r) := by
  intro d cs acc v r h
  cases cs with
  | nil => rw [parseMembers] at h; cases h
  | cons q t =>
    rw [parseMembers_succ] at h
    by_cases hq : q = '"'
    · rw [if_pos hq] at h
      cases hk : unquote none t with
      | none => rw [hk] at h; cases h
      | some p =>
        obtain ⟨k, r1⟩ := p
        rw [hk] at h
        simp only at h
        have hlk := unquote_length _ _ _ _ hk
        have hsk1 := skipSpace_length_le r1
        cases hs1 : skipSpace r1 with
        | nil => rw [hs1] at h; cases h
        | cons col r2 =>
          rw [hs1] at hsk1
          rw [hs1] at h
          simp only at h
          simp only [List.length_cons] at hsk1
          by_cases hc : col = ':'
          · rw [if_pos hc] at h
            have hsk2 := skipSpace_length_le r2
            cases hv : parseValue f d (skipSpace r2) with
            | none => rw [hv] at h; cases h
            | some p3 =>
              obtain ⟨v1, r3⟩ := p3
              rw [hv] at h
              simp only at h
              obtain ⟨hl0, hg0⟩ := hV _ _ _ _ hv
              have hsk3 := skipSpace_length_le r3
              cases hs3 : skipSpace r3 with
              | nil => rw [hs3] at h; cases h
              | cons c r4 =>
                rw [hs3] at hsk3
                rw [hs3] at h
                simp only at h
                have hsk4 := skipSpace_length_le r4
                simp only [List.length_cons] at hsk3 ⊢
                by_cases h1 : c = ','
                · rw [if_pos h1] at h
                  obtain ⟨hl, hg⟩ := hM _ _ _ _ _ h
                  refine ⟨by omega, fun g hg1 => ?_⟩
                  obtain ⟨g1, rfl⟩ : ∃ g1, g = g1 + 1 := ⟨g - 1, by omega⟩
                  rw [parseMembers_succ, if_pos hq, hk]
                  simp only [hs1, if_pos hc, hg0 g1 (by omega), hs3, if_pos h1]
                  exact hg g1 (by omega)
                · rw [if_neg h1] at h
                  by_cases h2 : c = '\x7d'
                  · rw [if_pos h2] at h
                    simp only [Option.some.injEq, Prod.mk.injEq] at h
                    obtain ⟨hv1, hr⟩ := h
                    subst hr
                    refine ⟨by omega, fun g hg1 => ?_⟩
                    obtain ⟨g1, rfl⟩ : ∃ g1, g = g1 + 1 := ⟨g - 1, by omega⟩
                    rw [parseMembers_succ, if_pos hq, hk]
                    simp only [hs1, if_pos hc, hg0 g1 (by omega), hs3, if_neg h1, if_pos h2, hv1]
                  · rw [if_neg h2] at h; cases h
          · rw [if_neg hc] at h; cases h
    · rw [if_neg hq] at h; cases h

theorem parse_fuel (f : Nat) :
    (∀ d cs v r, parseValue f d cs = some (v, r) →
      r.length < cs.length ∧ ∀ g, cs.length - r.length ≤ g → parseValue g d cs = some (v, r))
    ∧ (∀ d cs acc v r, parseElems f d cs acc = some (v, r) →
      r.length < cs.length ∧ ∀ g, cs.length - r.length ≤ g → parseElems g d cs acc = some (v, r))
    ∧ (∀ d cs acc v r, parseMembers f d cs acc = some (v, r) →
      r.length < cs.length ∧
        ∀ g, cs.length - r.length ≤ g → parseMembers g d cs acc = some (v, r)) := by
  induction f with
  | zero =>
    refine ⟨?_, ?_, ?_⟩
    · intro d cs v r h; rw [parseValue_zero] at h; cases h
    · intro d cs acc v r h; rw [parseElems_zero] at h; cases h
    · intro d cs acc v r h; rw [parseMembers_zero] at h; cases h
  | succ f ih =>
    exact ⟨parseValue_step f ih.2.1 ih.2.2, parseElems_step f ih.1 ih.2.1,
      parseMembers_step f ih.1 ih.2.2⟩

/-- The bound on the recursion in parseJson is never the reason for a
failure: whenever some bound lets the scanner read a value from the text
(after leading white space) with only white space after it, parseJson returns
that value. -/
theorem parseJson_of_some_fuel (data : GoString) (fuel : Nat) (v : Json) (r : List Char)
    (h : parseValue fuel 0 (skipSpace (toText data)) = some (v, r)) (hr : skipSpace r = []) :
    parseJson data = some v := by
  obtain ⟨_, hg⟩ := (parse_fuel fuel).1 _ _ _ _ h
  rw [parseJson, parseText, hg _ (by omega)]
  simp only [hr, if_true]

/-! ## Decoding into the records -/

theorem setField_enabled (w : EventWebhook) (v : Json) :
    w.setField "enabled" v =
      (storeBool "enabled" w.Enabled v).map (fun b => { w with Enabled := b }) id :=
  rfl

theorem setField_id (w : EventWebhook) (v : Json) :
    w.setField "id" v =
      (storeString "id" w.ID v).map (fun s => { w with ID := s }) id :=
  rfl

theorem setField_friendly_name (w : EventWebhook) (v : Json) :
    w.setField "friendly_name" v =
      (storeString "friendly_name" w.FriendlyName v).map (fun s => { w with FriendlyName := s }) id :=
  rfl

theorem setField_url (w : EventWebhook) (v : Json) :
    w.setField "url" v =
      (storeString "url" w.URL v).map (fun s => { w with URL := s }) id :=
  rfl

theorem setField_group_resubscribe (w : EventWebhook) (v : Json) :
    w.setField "group_resubscribe" v =
      (storeBool "group_resubscribe" w.GroupResubscribe v).map (fun b => { w with GroupResubscribe := b }) id :=
  rfl

theorem setField_delivered (w : EventWebhook) (v : Json) :
    w.setField "delivered" v =
      (storeBool "delivered" w.Delivered v).map (fun b => { w with Delivered := b }) id :=
  rfl

theorem setField_group_unsubscribe (w : EventWebhook) (v : Json) :
    w.setField "group_unsubscribe" v =
      (storeBool "group_unsubscribe" w.GroupUnsubscribe v).map (fun b => { w with GroupUnsubscribe := b }) id :=
  rfl

theorem setField_spam_report (w : EventWebhook) (v : Json) :
    w.setField "spam_report" v =
      (storeBool "spam_report" w.SpamReport v).map (fun b => { w with SpamReport := b }) id :=
  rfl

theorem setField_bounce (w : EventWebhook) (v : Json) :
    w.setField "bounce" v =
      (storeBool "bounce" w.Bounce v).map (fun b => { w with Bounce := b }) id :=
  rfl

theorem setField_deferred (w : EventWebhook) (v : Json) :
    w.setField "deferred" v =
      (storeBool "deferred" w.Deferred v).map (fun b => { w with Deferred := b }) id :=
  rfl

theorem setField_unsubscribe (w : EventWebhook) (v : Json) :
    w.setField "unsubscribe" v =
      (storeBool "unsubscribe" w.Unsubscribe v).map (fun b => { w with Unsubscribe := b }) id :=
  rfl

theorem setField_processed (w : EventWebhook) (v : Json) :
    w.setField "processed" v =
      (storeBool "processed" w.Processed v).map (fun b => { w with Processed := b }) id :=
  rfl

theorem setField_open (w : EventWebhook) (v : Json) :
    w.setField "open" v =
      (storeBool "open" w.Open v).map (fun b => { w with Open := b }) id :=
  rfl

theorem setField_click (w : EventWebhook) (v : Json) :
    w.setField "click" v =
      (storeBool "click" w.Click v).map (fun b => { w with Click := b }) id :=
  rfl

theorem setField_dropped (w : EventWebhook) (v : Json) :
    w.setField "dropped" v =
      (storeBool "dropped" w.Dropped v).map (fun b => { w with Dropped := b }) id :=
  rfl

theorem setField_oauth_client_id (w : EventWebhook) (v : Json) :
    w.setField "oauth_client_id" v =
      (storeString "oauth_client_id" w.OAuthClientID v).map (fun s => { w with OAuthClientID := s }) id :=
  rfl

theorem setField_oauth_client_secret (w : EventWebhook) (v : Json) :
    w.setField "oauth_client_secret" v =
      (storeString "oauth_client_secret" w.OAuthClientSecret v).map (fun s => { w with OAuthClientSecret := s }) id :=
  rfl

theorem setField_oauth_token_url (w : EventWebhook) (v : Json) :
    w.setField "oauth_token_url" v =
      (storeString "oauth_token_url" w.OAuthTokenURL v).map (fun s => { w with OAuthTokenURL := s }) id :=
  rfl

theorem go_empty : go "" = [] := rfl

theorem toValidUTF8_nil : toValidUTF8 [] = [] := rfl

/-- Decoding the members json.Marshal writes, as the scanner reads them back. -/
theorem decodeMembers_members (w : EventWebhook) :
    decodeMembers EventWebhook.setField (w.members.map fun kv => (kv.1, kv.2.toValid))
      EventWebhook.zero = (w.toValid, none) := by
  cases w
  simp only [EventWebhook.members, omitEmpty, go_empty]
  split_ifs <;>
    simp [decodeMembers, Json.toValid, EventWebhook.toValid, toValidUTF8_nil, go_empty,
        setField_enabled, setField_id, setField_friendly_name, setField_url,
        setField_group_resubscribe, setField_delivered, setField_group_unsubscribe,
        setField_spam_report, setField_bounce, setField_deferred, setField_unsubscribe,
        setField_processed, setField_open, setField_click, setField_dropped,
        setField_oauth_client_id, setField_oauth_client_secret, setField_oauth_token_url,
      storeBool, storeString, Prod.map, EventWebhook.zero, *]

theorem setField_of_not_mem (w : EventWebhook) (k : String) (v : Json)
    (h : foldName k ∉ EventWebhook.fieldNames) : w.setField k v = (w, none) := by
  simp only [EventWebhook.fieldNames, List.mem_cons, List.mem_singleton, List.not_mem_nil,
    or_false, not_or] at h
  simp [EventWebhook.setField, h]

theorem setField_fold (w : EventWebhook) (k n : String) (v : Json) (h : foldName k = n)
    (hn : foldName n = n) : w.setField k v = w.setField n v := by
  simp only [EventWebhook.setField, h, hn]

theorem decodeMembers_of_no_field (ms : List (String × Json)) (w : EventWebhook)
    (h : ∀ kv ∈ ms, foldName kv.1 ∉ EventWebhook.fieldNames) :
    decodeMembers EventWebhook.setField ms w = (w, none) := by
  induction ms with
  | nil => rfl
  | cons kv ms ih =>
    obtain ⟨k, v⟩ := kv
    rw [decodeMembers, setField_of_not_mem w k v (h (k, v) (List.mem_cons_self _ _))]
    exact ih (fun kv hkv => h kv (List.mem_cons_of_mem _ hkv))

theorem accepts_of_not_mem (k : String) (v : Json)
    (h : foldName k ∉ EventWebhook.fieldNames) : EventWebhook.accepts k v = true := by
  simp only [EventWebhook.fieldNames, List.mem_cons, List.mem_singleton, List.not_mem_nil,
    or_false, not_or] at h
  simp [EventWebhook.accepts, EventWebhook.boolFieldNames, EventWebhook.stringFieldNames, h]

/-- A member is accepted exactly when storing it raises no type error. -/
theorem setField_accepts (w : EventWebhook) (k : String) (v : Json) :
    (EventWebhook.accepts k v = true → (w.setField k v).2 = none)
    ∧ (EventWebhook.accepts k v = false → ∃ e, (w.setField k v).2 = some e) := by
  by_cases hm : foldName k ∈ EventWebhook.fieldNames
  · simp only [EventWebhook.fieldNames, List.mem_cons, List.mem_singleton, List.not_mem_nil,
      or_false] at hm
    rcases hm with hm | hm | hm | hm | hm | hm | hm | hm | hm
      | hm | hm | hm | hm | hm | hm | hm | hm | hm
    all_goals
      rw [setField_fold _ k _ v hm (by decide)]
      simp only [setField_enabled, setField_id, setField_friendly_name, setField_url,
        setField_group_resubscribe, setField_delivered, setField_group_unsubscribe,
        setField_spam_report, setField_bounce, setField_deferred, setField_unsubscribe,
        setField_processed, setField_open, setField_click, setField_dropped,
        setField_oauth_client_id, setField_oauth_client_secret, setField_oauth_token_url, EventWebhook.accepts, hm]
      cases v <;>
        simp [storeBool, storeString, Prod.map, fitsBool, fitsString,
          EventWebhook.boolFieldNames, EventWebhook.stringFieldNames]
  · rw [setField_of_not_mem w k v hm, accepts_of_not_mem k v hm]
    simp

theorem decodeMembers_accepts (ms : List (String × Json)) :
    ∀ w : EventWebhook,
      ((ms.all fun kv => EventWebhook.accepts kv.1 kv.2) = true →
        (decodeMembers EventWebhook.setField ms w).2 = none)
      ∧ ((ms.all fun kv => EventWebhook.accepts kv.1 kv.2) = false →
        ∃ e, (decodeMembers EventWebhook.setField ms w).2 = some e) := by
  induction ms with
  | nil => intro w; exact ⟨fun _ => rfl, fun h => by simp at h⟩
  | cons kv ms ih =>
    intro w
    obtain ⟨k, v⟩ := kv
    cases ha : EventWebhook.accepts k v with
    | false =>
      obtain ⟨e, he⟩ := (setField_accepts w k v).2 ha
      refine ⟨fun h => by simp [ha] at h, fun _ => ⟨e, ?_⟩⟩
      rw [decodeMembers, he]
    | true =>
      have hn := (setField_accepts w k v).1 ha
      rw [decodeMembers, hn]
      simp only [List.all_cons, ha, Bool.true_and]
      exact ih _

theorem decodeMembers_fst_step {α : Type} (setField : α → String → Json → α × Option JsonError)
    (k : String) (v : Json) (ms : List (String × Json)) (a : α) :
    (decodeMembers setField ((k, v) :: ms) a).1
      = (decodeMembers setField ms (setField a k v).1).1 := by
  rw [decodeMembers]
  cases (setField a k v).2 <;> rfl

theorem setField_keeps_FriendlyName (w : EventWebhook) (k : String) (v : Json)
    (hk : foldName k ≠ "friendly_name") : (w.setField k v).1.FriendlyName = w.FriendlyName := by
  by_cases hm : foldName k ∈ EventWebhook.fieldNames
  · simp only [EventWebhook.fieldNames, List.mem_cons, List.mem_singleton, List.not_mem_nil,
      or_false] at hm
    rcases hm with hm | hm | hm | hm | hm | hm | hm | hm | hm
      | hm | hm | hm | hm | hm | hm | hm | hm | hm
    all_goals first
      | exact absurd hm hk
      | (rw [setField_fold _ k _ v hm (by decide)]
         simp only [setField_enabled, setField_id, setField_friendly_name, setField_url,
           setField_group_resubscribe, setField_delivered, setField_group_unsubscribe,
           setField_spam_report, setField_bounce, setField_deferred, setField_unsubscribe,
           setField_processed, setField_open, setField_click, setField_dropped,
           setField_oauth_client_id, setField_oauth_client_secret, setField_oauth_token_url]
         rfl)
  · rw [setField_of_not_mem w k v hm]

theorem decodeMembers_keeps_FriendlyName (ms : List (String × Json)) :
    ∀ w : EventWebhook, (∀ kv ∈ ms, foldName kv.1 ≠ "friendly_name") →
      (decodeMembers EventWebhook.setField ms w).1.FriendlyName = w.FriendlyName := by
  induction ms with
  | nil => intro w _; rfl
  | cons kv ms ih =>
    intro w hk
    obtain ⟨k, v⟩ := kv
    rw [decodeMembers_fst_step, ih _ (fun kv hkv => hk kv (List.mem_cons_of_mem _ hkv))]
    exact setField_keeps_FriendlyName w k v (hk (k, v) (List.mem_cons_self _ _))

theorem setField_keeps_URL (w : EventWebhook) (k : String) (v : Json)
    (hk : foldName k ≠ "url") : (w.setField k v).1.URL = w.URL := by
  by_cases hm : foldName k ∈ EventWebhook.fieldNames
  · simp only [EventWebhook.fieldNames, List.mem_cons, List.mem_singleton, List.not_mem_nil,
      or_false] at hm
    rcases hm with hm | hm | hm | hm | hm | hm | hm | hm | hm
      | hm | hm | hm | hm | hm | hm | hm | hm | hm
    all_goals first
      | exact absurd hm hk
      | (rw [setField_fold _ k _ v hm (by decide)]
         simp only [setField_enabled, setField_id, setField_friendly_name, setField_url,
           setField_group_resubscribe, setField_delivered, setField_group_unsubscribe,
           setField_spam_report, setField_bounce, setField_deferred, setField_unsubscribe,
           setField_processed, setField_open, setField_click, setField_dropped,
           setField_oauth_client_id, setField_oauth_client_secret, setField_oauth_token_url]
         rfl)
  · rw [setField_of_not_mem w k v hm]

theorem decodeMembers_keeps_URL (ms : List (String × Json)) :
    ∀ w : EventWebhook, (∀ kv ∈ ms, foldName kv.1 ≠ "url") →
      (decodeMembers EventWebhook.setField ms w).1.URL = w.URL := by
  induction ms with
  | nil => intro w _; rfl
  | cons kv ms ih =>
    intro w hk
    obtain ⟨k, v⟩ := kv
    rw [decodeMembers_fst_step, ih _ (fun kv hkv => hk kv (List.mem_cons_of_mem _ hkv))]
    exact setField_keeps_URL w k v (hk (k, v) (List.mem_cons_self _ _))

theorem setField_keeps_OAuthClientID (w : EventWebhook) (k : String) (v : Json)
    (hk : foldName k ≠ "oauth_client_id") : (w.setField k v).1.OAuthClientID = w.OAuthClientID := by
  by_cases hm : foldName k ∈ EventWebhook.fieldNames
  · simp only [EventWebhook.fieldNames, List.mem_cons, List.mem_singleton, List.not_mem_nil,
      or_false] at hm
    rcases hm with hm | hm | hm | hm | hm | hm | hm | hm | hm
      | hm | hm | hm | hm | hm | hm | hm | hm | hm
    all_goals first
      | exact absurd hm hk
      | (rw [setField_fold _ k _ v hm (by decide)]
         simp only [setField_enabled, setField_id, setField_friendly_name, setField_url,
           setField_group_resubscribe, setField_delivered, setField_group_unsubscribe,
           setField_spam_report, setField_bounce, setField_deferred, setField_unsubscribe,
           setField_processed, setField_open, setField_click, setField_dropped,
           setField_oauth_client_id, setField_oauth_client_secret, setField_oauth_token_url]
         rfl)
  · rw [setField_of_not_mem w k v hm]

theorem decodeMembers_keeps_OAuthClientID (ms : List (String × Json)) :
    ∀ w : EventWebhook, (∀ kv ∈ ms, foldName kv.1 ≠ "oauth_client_id") →
      (decodeMembers EventWebhook.setField ms w).1.OAuthClientID = w.OAuthClientID := by
  induction ms with
  | nil => intro w _; rfl
  | cons kv ms ih =>
    intro w hk
    obtain ⟨k, v⟩ := kv
    rw [decodeMembers_fst_step, ih _ (fun kv hkv => hk kv (List.mem_cons_of_mem _ hkv))]
    exact setField_keeps_OAuthClientID w k v (hk (k, v) (List.mem_cons_self _ _))

theorem setField_keeps_OAuthClientSecret (w : EventWebhook) (k : String) (v : Json)
    (hk : foldName k ≠ "oauth_client_secret") : (w.setField k v).1.OAuthClientSecret = w.OAuthClientSecret := by
  by_cases hm : foldName k ∈ EventWebhook.fieldNames
  · simp only [EventWebhook.fieldNames, List.mem_cons, List.mem_singleton, List.not_mem_nil,
      or_false] at hm
    rcases hm with hm | hm | hm | hm | hm | hm | hm | hm | hm
      | hm | hm | hm | hm | hm | hm | hm | hm | hm
    all_goals first
      | exact absurd hm hk
      | (rw [setField_fold _ k _ v hm (by decide)]
         simp only [setField_enabled, setField_id, setField_friendly_name, setField_url,
           setField_group_resubscribe, setField_delivered, setField_group_unsubscribe,
           setField_spam_report, setField_bounce, setField_deferred, setField_unsubscribe,
           setField_processed, setField_open, setField_click, setField_dropped,
           setField_oauth_client_id, setField_oauth_client_secret, setField_oauth_token_url]
         rfl)
  · rw [setField_of_not_mem w k v hm]

theorem decodeMembers_keeps_OAuthClientSecret (ms : List (String × Json)) :
    ∀ w : EventWebhook, (∀ kv ∈ ms, foldName kv.1 ≠ "oauth_client_secret") →
      (decodeMembers EventWebhook.setField ms w).1.OAuthClientSecret = w.OAuthClientSecret := by
  induction ms with
  | nil => intro w _; rfl
  | cons kv ms ih =>
    intro w hk
    obtain ⟨k, v⟩ := kv
    rw [decodeMembers_fst_step, ih _ (fun kv hkv => hk kv (List.mem_cons_of_mem _ hkv))]
    exact setField_keeps_OAuthClientSecret w k v (hk (k, v) (List.mem_cons_self _ _))

theorem setField_keeps_OAuthTokenURL (w : EventWebhook) (k : String) (v : Json)
    (hk : foldName k ≠ "oauth_token_url") : (w.setField k v).1.OAuthTokenURL = w.OAuthTokenURL := by
  by_cases hm : foldName k ∈ EventWebhook.fieldNames
  · simp only [EventWebhook.fieldNames, List.mem_cons, List.mem_singleton, List.not_mem_nil,
      or_false] at hm
    rcases hm with hm | hm | hm | hm | hm | hm | hm | hm | hm
      | hm | hm | hm | hm | hm | hm | hm | hm | hm
    all_goals first
      | exact absurd hm hk
      | (rw [setField_fold _ k _ v hm (by decide)]
         simp only [setField_enabled, setField_id, setField_friendly_name, setField_url,
           setField_group_resubscribe, setField_delivered, setField_group_unsubscribe,
           setField_spam_report, setField_bounce, setField_deferred, setField_unsubscribe,
           setField_processed, setField_open, setField_click, setField_dropped,
           setField_oauth_client_id, setField_oauth_client_secret, setField_oauth_token_url]
         rfl)
  · rw [setField_of_not_mem w k v hm]

theorem decodeMembers_keeps_OAuthTokenURL (ms : List (String × Json)) :
    ∀ w : EventWebhook, (∀ kv ∈ ms, foldName kv.1 ≠ "oauth_token_url") →
      (decodeMembers EventWebhook.setField ms w).1.OAuthTokenURL = w.OAuthTokenURL := by
  induction ms with
  | nil => intro w _; rfl
  | cons kv ms ih =>
    intro w hk
    obtain ⟨k, v⟩ := kv
    rw [decodeMembers_fst_step, ih _ (fun kv hkv => hk kv (List.mem_cons_of_mem _ hkv))]
    exact setField_keeps_OAuthTokenURL w k v (hk (k, v) (List.mem_cons_self _ _))

theorem mem_memberKeys_omitEmpty (k k1 : String) (s : GoString) :
    k1 ∈ memberKeys (omitEmpty k s) ↔ k1 = k ∧ s ≠ "" := by
  unfold omitEmpty memberKeys
  split_ifs with h <;> simp [h]

theorem memberKeys_members (w : EventWebhook) :
    memberKeys w.members =
      ["enabled", "id"]
      ++ memberKeys (omitEmpty "friendly_name" w.FriendlyName)
      ++ memberKeys (omitEmpty "url" w.URL)
      ++ ["group_resubscribe", "delivered", "group_unsubscribe", "spam_report",
        "bounce", "deferred", "unsubscribe", "processed", "open", "click", "dropped"]
      ++ memberKeys (omitEmpty "oauth_client_id" w.OAuthClientID)
      ++ memberKeys (omitEmpty "oauth_client_secret" w.OAuthClientSecret)
      ++ memberKeys (omitEmpty "oauth_token_url" w.OAuthTokenURL) := by
  simp [EventWebhook.members, memberKeys]

theorem signing_setField_accepts (s : EventWebhookSigning) (k : String) (v : Json) :
    (EventWebhookSigning.accepts k v = true → (s.setField k v).2 = none)
    ∧ (EventWebhookSigning.accepts k v = false → ∃ e, (s.setField k v).2 = some e) := by
  unfold EventWebhookSigning.setField EventWebhookSigning.accepts
  split_ifs <;> cases v <;> simp [storeBool, storeString, Prod.map, fitsBool, fitsString]

theorem signing_decodeMembers_accepts (ms : List (String × Json)) :
    ∀ s : EventWebhookSigning,
      ((ms.all fun kv => EventWebhookSigning.accepts kv.1 kv.2) = true →
        (decodeMembers EventWebhookSigning.setField ms s).2 = none)
      ∧ ((ms.all fun kv => EventWebhookSigning.accepts kv.1 kv.2) = false →
        ∃ e, (decodeMembers EventWebhookSigning.setField ms s).2 = some e) := by
  induction ms with
  | nil => intro s; exact ⟨fun _ => rfl, fun h => by simp at h⟩
  | cons kv ms ih =>
    intro s
    obtain ⟨k, v⟩ := kv
    cases ha : EventWebhookSigning.accepts k v with
    | false =>
      obtain ⟨e, he⟩ := (signing_setField_accepts s k v).2 ha
      refine ⟨fun h => by simp [ha] at h, fun _ => ⟨e, ?_⟩⟩
      rw [decodeMembers, he]
    | true =>
      have hn := (signing_setField_accepts s k v).1 ha
      rw [decodeMembers, hn]
      simp only [List.all_cons, ha, Bool.true_and]
      exact ih _

/-- The texts that fit EventWebhook are exactly those json.Unmarshal decodes
without error. -/
theorem unmarshalEventWebhook_decodable (b : GoString) :
    (decodable EventWebhook.accepts b = true → (unmarshalEventWebhook b).2 = none)
    ∧ (decodable EventWebhook.accepts b = false → ∃ e, (unmarshalEventWebhook b).2 = some e) := by
  unfold decodable unmarshalEventWebhook
  cases parseJson b with
  | none => exact ⟨fun h => by simp at h, fun _ => ⟨_, rfl⟩⟩
  | some j =>
    cases j with
    | object ms => exact decodeMembers_accepts ms EventWebhook.zero
    | null => exact ⟨fun _ => rfl, fun h => by simp [fitsStruct] at h⟩
    | _ => exact ⟨fun h => by simp [fitsStruct] at h, fun _ => ⟨_, rfl⟩⟩

/-- The texts that fit EventWebhookSigning are exactly those json.Unmarshal
decodes without error. -/
theorem unmarshalEventWebhookSigning_decodable (b : GoString) :
    (decodable EventWebhookSigning.accepts b = true →
      (unmarshalEventWebhookSigning b).2 = none)
    ∧ (decodable EventWebhookSigning.accepts b = false →
      ∃ e, (unmarshalEventWebhookSigning b).2 = some e) := by
  unfold decodable unmarshalEventWebhookSigning
  cases parseJson b with
  | none => exact ⟨fun h => by simp at h, fun _ => ⟨_, rfl⟩⟩
  | some j =>
    cases j with
    | object ms => exact signing_decodeMembers_accepts ms EventWebhookSigning.zero
    | null => exact ⟨fun _ => rfl, fun h => by simp [fitsStruct] at h⟩
    | _ => exact ⟨fun h => by simp [fitsStruct] at h, fun _ => ⟨_, rfl⟩⟩

theorem parseEventWebhook_of_none (b : GoString) (h : (unmarshalEventWebhook b).2 = none) :
    parseEventWebhook b
      = (some (unmarshalEventWebhook b).1, { StatusCode := 200, Err := none }) := by
  simp only [parseEventWebhook, h]
  rfl

theorem parseEventWebhook_of_some (b : GoString) (e : JsonError)
    (h : (unmarshalEventWebhook b).2 = some e) :
    parseEventWebhook b
      = (none, { StatusCode := 500,
                 Err := some (.errorf "failed parsing event webhook: " (.json e) "") }) := by
  simp only [parseEventWebhook, h]
  rfl

theorem parseEventWebhookSigning_of_none (b : GoString)
    (h : (unmarshalEventWebhookSigning b).2 = none) :
    parseEventWebhookSigning b
      = (some (unmarshalEventWebhookSigning b).1, { StatusCode := 200, Err := none }) := by
  simp only [parseEventWebhookSigning, h]
  rfl

theorem parseEventWebhookSigning_of_some (b : GoString) (e : JsonError)
    (h : (unmarshalEventWebhookSigning b).2 = some e) :
    parseEventWebhookSigning b
      = (none, { StatusCode := 500,
                 Err := some (.errorf "failed parsing event webhook: " (.json e) "") }) := by
  simp only [parseEventWebhookSigning, h]
  rfl

theorem parseEventWebhook_cases (b : GoString) :
    (∃ r, parseEventWebhook b = (some r, { StatusCode := 200, Err := none }))
    ∨ (∃ e, parseEventWebhook b = (none,
          { StatusCode := 500,
            Err := some (.errorf "failed parsing event webhook: " (.json e) "") })) := by
  cases h : (unmarshalEventWebhook b).2 with
  | none => exact Or.inl ⟨_, parseEventWebhook_of_none b h⟩
  | some e => exact Or.inr ⟨e, parseEventWebhook_of_some b e h⟩

theorem parseEventWebhookSigning_cases (b : GoString) :
    (∃ r, parseEventWebhookSigning b = (some r, { StatusCode := 200, Err := none }))
    ∨ (∃ e, parseEventWebhookSigning b = (none,
          { StatusCode := 500,
            Err := some (.errorf "failed parsing event webhook: " (.json e) "") })) := by
  cases h : (unmarshalEventWebhookSigning b).2 with
  | none => exact Or.inl ⟨_, parseEventWebhookSigning_of_none b h⟩
  | some e => exact Or.inr ⟨e, parseEventWebhookSigning_of_some b e h⟩

theorem members_ne_nil (w : EventWebhook) : w.members ≠ [] := by
  simp [EventWebhook.members]

theorem omitEmpty_scalar (k : String) (s : GoString) : ∀ kv ∈ omitEmpty k s, isScalar kv.2 = true := by
  intro kv h
  unfold omitEmpty at h
  split_ifs at h
  · simp at h
  · simp at h; subst h; rfl

theorem members_scalar (w : EventWebhook) : ∀ kv ∈ w.members, isScalar kv.2 = true := by
  intro kv h
  simp only [EventWebhook.members, List.mem_append] at h
  rcases h with ((((((h | h) | h) | h) | h) | h) | h)
  all_goals first
    | exact omitEmpty_scalar _ _ _ h
    | (simp only [List.mem_cons, List.mem_singleton, List.not_mem_nil, or_false] at h
       casesm* _ ∨ _ <;> subst_vars <;> rfl)

theorem unmarshal_marshal (w : EventWebhook) :
    unmarshalEventWebhook (marshalEventWebhook w) = (w.toValid, none) := by
  simp only [unmarshalEventWebhook, marshalEventWebhook, EventWebhook.toJson,
    parseJson_render_object w.members (members_ne_nil w) (members_scalar w), decodeStruct,
    decodeMembers_members]

/-- Keys are matched with the json names of the fields without regard to
case, and of two members for one field the later one wins. -/
theorem unmarshal_folds_keys_and_keeps_last :
    unmarshalEventWebhook "\x7b\"ENABLED\":true,\"Url\":\"a\",\"url\":\"b\"\x7d"
      = ({ EventWebhook.zero with Enabled := true, URL := "b" }, none) := by
  rfl

/-- A type error does not stop the decoding: the members after it are still
stored, and the first error is the one returned. -/
theorem unmarshal_goes_on_after_type_error :
    unmarshalEventWebhook "\x7b\"enabled\":1,\"url\":\"a\",\"click\":\"x\"\x7d"
      = ({ EventWebhook.zero with URL := "a" },
          some (.UnmarshalTypeError "number" "enabled")) := by
  rfl

theorem toValid_of_validStrings (w : EventWebhook) (h : w.validStrings = true) :
    w.toValid = w := by
  simp only [EventWebhook.validStrings, Bool.and_eq_true] at h
  obtain ⟨⟨⟨⟨⟨h1, h2⟩, h3⟩, h4⟩, h5⟩, h6⟩ := h
  cases w
  simp only [EventWebhook.toValid] at *
  simp only [toValidUTF8_of_valid _ h1, toValidUTF8_of_valid _ h2, toValidUTF8_of_valid _ h3,
    toValidUTF8_of_valid _ h4, toValidUTF8_of_valid _ h5, toValidUTF8_of_valid _ h6]

/-! ## Wrapped errors -/

theorem GoError.Is_self (e : GoError) : GoError.Is e e = true := by
  cases e <;> simp [GoError.Is]

theorem GoError.Is_errorf (before after : GoString) (e : GoError) :
    GoError.Is (.errorf before e after) e = true := by
  simp [GoError.Is, GoError.Is_self]

/-! ## The decimal text of the status code -/

/-- The byte of a decimal digit. -/
theorem digitValue_byte (d : Nat) (h : d < 10) : digitValue (byte (48 + d)) = some d := by
  have hv : (byte (48 + d)).val = 48 + d := by rw [byte_val]; omega
  simp only [digitValue, hv]
  rw [if_pos (by omega)]
  simp

theorem natDigits_eq (fuel : Nat) :
    ∀ (n : Nat) (acc : GoString), n < fuel → 0 < n →
      natDigits fuel n acc = ((Nat.digits 10 n).reverse.map fun d => byte (48 + d)) ++ acc := by
  induction fuel with
  | zero => intro n acc h; omega
  | succ fuel ih =>
    intro n acc hf hn
    rw [natDigits, Nat.digits_def' (by decide) hn]
    by_cases h0 : n / 10 = 0
    · rw [if_pos h0, h0]; simp
    · rw [if_neg h0, ih (n / 10) _ (by omega) (by omega)]
      simp

/-- The text formatNat writes for a positive number is its list of decimal
digits, most significant first. -/
theorem formatNat_eq_digits (n : Nat) (hn : 0 < n) :
    formatNat n = (Nat.digits 10 n).reverse.map fun d => byte (48 + d) := by
  rw [formatNat, natDigits_eq (n + 1) n [] (by omega) hn, List.append_nil]

theorem formatNat_zero : formatNat 0 = [byte 48] := rfl

theorem readDigits_append (xs : GoString) (d : Nat) (hd : d < 10) :
    ∀ acc, readDigits (xs ++ [byte (48 + d)]) acc
      = (readDigits xs acc).map fun a => a * 10 + d := by
  induction xs with
  | nil => intro acc; simp [readDigits, digitValue_byte d hd]
  | cons b bs ih =>
    intro acc
    rw [List.cons_append, readDigits, readDigits]
    cases digitValue b with
    | none => rfl
    | some v => exact ih _

theorem readDigits_digits (ds : List Nat) (h : ∀ d ∈ ds, d < 10) :
    readDigits (ds.reverse.map fun d => byte (48 + d)) 0 = some (Nat.ofDigits 10 ds) := by
  induction ds with
  | nil => rfl
  | cons d ds ih =>
    rw [List.reverse_cons, List.map_append, List.map_singleton,
      readDigits_append _ d (h d (List.mem_cons_self _ _)),
      ih (fun x hx => h x (List.mem_cons_of_mem _ hx)), Nat.ofDigits_cons]
    simp only [Option.map_some', Option.some.injEq]
    omega

/-- Reading the text of a natural number gives the number back. -/
theorem readNat_formatNat (n : Nat) : readNat (formatNat n) = some n := by
  rcases Nat.eq_zero_or_pos n with h | h
  · subst h; rfl
  · have hd := readDigits_digits (Nat.digits 10 n) (fun d hd => Nat.digits_lt_base (by decide) hd)
    rw [Nat.ofDigits_digits] at hd
    rw [formatNat_eq_digits n h]
    cases hl : ((Nat.digits 10 n).reverse.map fun d => byte (48 + d)) with
    | nil =>
      have : Nat.digits 10 n = [] := by simpa using hl
      exact absurd (Nat.digits_eq_nil_iff_eq_zero.mp this) (by omega)
    | cons b bs => rw [hl] at hd; exact hd

theorem formatNat_head (n : Nat) : ∃ b bs, formatNat n = b :: bs ∧ b.val ≠ 45 := by
  have h := readNat_formatNat n
  cases hl : formatNat n with
  | nil => rw [hl] at h; simp [readNat] at h
  | cons b bs =>
    refine ⟨b, bs, rfl, ?_⟩
    rw [hl, readNat, readDigits] at h
    intro hb
    have : digitValue b = none := by simp [digitValue, hb]
    rw [this] at h
    cases h

/-- Reading the text formatInt writes gives the integer back. -/
theorem readInt_formatInt (s : Int) : readInt (formatInt s) = some s := by
  cases s with
  | ofNat n =>
    obtain ⟨b, bs, hl, hb⟩ := formatNat_head n
    rw [formatInt, hl, readInt, if_neg hb, ← hl, readNat_formatNat]
    rfl
  | negSucc n =>
    have h45 : (byte 45).val = 45 := rfl
    rw [formatInt, readInt, if_pos h45, readNat_formatNat]
    rfl

/-- The text formatInt writes for a positive integer is its list of decimal
digits, most significant first. -/
theorem formatInt_eq_digits (s : Int) (hs : 0 < s) :
    formatInt s = (Nat.digits 10 s.toNat).reverse.map fun d => byte (48 + d) := by
  cases s with
  | ofNat n =>
    have hn : 0 < n := Int.ofNat_lt.mp hs
    rw [formatInt, formatNat_eq_digits n hn]
    rfl
  | negSucc n => exact absurd hs (by have := Int.negSucc_lt_zero n; omega)

/-! ## Local validation, transport failures and status classification -/

/-- C1: with the empty string as url, CreateEventWebhook and UpdateEventWebhook
(for every id and every other argument) return no record and the RequestError
with status code 500 and error ErrURLRequired, and the list of transport
calls is left as it was: neither Get nor Post is invoked. -/
theorem empty_url_fails_before_any_call (c : Client) (log : List Call) (id : GoString)
    (enabled : Bool) (friendlyName : GoString) (groupResubscribe delivered groupUnsubscribe
    spamReport bounce deferred unsubscribe processed open_ click dropped : Bool)
    (oauthClientID oauthClientSecret oauthTokenURL : GoString) :
    CreateEventWebhook c log enabled friendlyName "" groupResubscribe delivered
        groupUnsubscribe spamReport bounce deferred unsubscribe processed open_ click dropped
        oauthClientID oauthClientSecret oauthTokenURL
      = ((none, { StatusCode := 500, Err := some ErrURLRequired }), log)
    ∧ UpdateEventWebhook c log id enabled friendlyName "" groupResubscribe delivered
        groupUnsubscribe spamReport bounce deferred unsubscribe processed open_ click dropped
        oauthClientID oauthClientSecret oauthTokenURL
      = ((none, { StatusCode := 500, Err := some ErrURLRequired }), log) := by
  constructor <;> rfl

/-- C2: when the transport answers without error with a status code s of at
least 300 and a body b, CreateEventWebhook and UpdateEventWebhook (non-empty
url) and DeleteEventWebhook return no record and a RequestError whose status
code is s and whose error is built by fmt.Errorf around the sentinel of the
operation: errors.Is finds the sentinel, and the message is the text of the
sentinel followed by s in decimal and by b unchanged. The text of s is the
list of its decimal digits, most significant first, and reading it as a
decimal numeral gives s back. The body is not decoded: the result is the same
for every b. -/
theorem status_ge_300_is_api_error (c : Client) (log : List Call) (id : GoString) (b : GoString)
    (s : Int) (hs : 300 ≤ s)
    (enabled : Bool) (friendlyName url : GoString) (groupResubscribe delivered groupUnsubscribe
    spamReport bounce deferred unsubscribe processed open_ click dropped : Bool)
    (oauthClientID oauthClientSecret oauthTokenURL : GoString) (hurl : url ≠ "") :
    (readInt (formatInt s) = some s
      ∧ formatInt s = (Nat.digits 10 s.toNat).reverse.map fun d => byte (48 + d))
    ∧ (∀ (m : Messages) (x : Sentinel),
        GoError.Is (.errorf "" (.sentinel x) (", status: " ++ formatInt s ++ ", response: " ++ b))
          (.sentinel x) = true
        ∧ GoError.Error m
            (.errorf "" (.sentinel x) (", status: " ++ formatInt s ++ ", response: " ++ b))
          = "" ++ m.sentinel x ++ (", status: " ++ formatInt s ++ ", response: " ++ b))
    ∧ (c.roundTrip log (Call.Post "POST" "/user/webhooks/event/settings" (.eventWebhook
          ⟨enabled, "", friendlyName, url, groupResubscribe, delivered, groupUnsubscribe,
            spamReport, bounce, deferred, unsubscribe, processed, open_, click, dropped,
            oauthClientID, oauthClientSecret, oauthTokenURL⟩)) = ⟨b, s, none⟩ →
        (CreateEventWebhook c log enabled friendlyName url groupResubscribe delivered
          groupUnsubscribe spamReport bounce deferred unsubscribe processed open_ click dropped
          oauthClientID oauthClientSecret oauthTokenURL).1
        = (none, { StatusCode := s, Err := some (.errorf "" ErrFailedCreatingEventWebhook
            (", status: " ++ formatInt s ++ ", response: " ++ b)) }))
    ∧ (c.roundTrip log (Call.Post "PATCH" ("/user/webhooks/event/settings/" ++ id) (.eventWebhook
          ⟨enabled, "", friendlyName, url, groupResubscribe, delivered, groupUnsubscribe,
            spamReport, bounce, deferred, unsubscribe, processed, open_, click, dropped,
            oauthClientID, oauthClientSecret, oauthTokenURL⟩)) = ⟨b, s, none⟩ →
        (UpdateEventWebhook c log id enabled friendlyName url groupResubscribe delivered
          groupUnsubscribe spamReport bounce deferred unsubscribe processed open_ click dropped
          oauthClientID oauthClientSecret oauthTokenURL).1
        = (none, { StatusCode := s, Err := some (.errorf "" ErrFailedUpdatingEventWebhook
            (", status: " ++ formatInt s ++ ", response: " ++ b)) }))
    ∧ (c.roundTrip log (Call.Get "DELETE" ("/user/webhooks/event/settings/" ++ id))
          = ⟨b, s, none⟩ →
        (DeleteEventWebhook c log id).1
        = { StatusCode := s, Err := some (.errorf "" ErrFailedDeletingEventWebhook
            (", status: " ++ formatInt s ++ ", response: " ++ b)) }) := by
  have hs2 : s ≥ StatusMultipleChoices := hs
  refine ⟨⟨readInt_formatInt s, formatInt_eq_digits s (by omega)⟩, ?_, ?_, ?_, ?_⟩
  · intro m x
    constructor
    · simp [GoError.Is]
    · simp [GoError.Error]
  · intro h
    simp only [CreateEventWebhook, Client.Post, if_neg hurl]
    simp [EventWebhook.zero, h, hs2]
  · intro h
    simp only [UpdateEventWebhook, Client.Post, if_neg hurl]
    simp [EventWebhook.zero, h, hs2]
  · intro h
    simp only [DeleteEventWebhook, Client.Get]
    simp [h, hs2]

/-- Witness of C2: status 503 with a body that is not JSON. -/
theorem status_ge_300_is_api_error_witness :
    formatInt 503 = "503"
    ∧ readInt "503" = some 503
    ∧ (CreateEventWebhook (stubClient ⟨"<html>busy</html>", 503, none⟩) [] true "hook"
        "https://example.org/events" true true true true true true true true true true true
        "cid" "secret" "https://example.org/token").1
      = (none, { StatusCode := 503, Err := some (.errorf "" ErrFailedCreatingEventWebhook
          ", status: 503, response: <html>busy</html>") })
    ∧ (UpdateEventWebhook (stubClient ⟨"<html>busy</html>", 503, none⟩) [] "wh_1" true "hook"
        "https://example.org/events" true true true true true true true true true true true
        "cid" "secret" "https://example.org/token").1
      = (none, { StatusCode := 503, Err := some (.errorf "" ErrFailedUpdatingEventWebhook
          ", status: 503, response: <html>busy</html>") })
    ∧ (DeleteEventWebhook (stubClient ⟨"<html>busy</html>", 503, none⟩) [] "wh_1").1
      = { StatusCode := 503, Err := some (.errorf "" ErrFailedDeletingEventWebhook
          ", status: 503, response: <html>busy</html>") } := by
  have h := status_ge_300_is_api_error (stubClient ⟨"<html>busy</html>", 503, none⟩) [] "wh_1"
    "<html>busy</html>" 503 (by decide) true "hook" "https://example.org/events"
    true true true true true true true true true true true
    "cid" "secret" "https://example.org/token" (by decide)
  exact ⟨rfl, h.1.1, h.2.2.1 rfl, h.2.2.2.1 rfl, h.2.2.2.2 rfl⟩

/-- C3: when the transport call of an operation returns an error e, the
operation returns no record (where it returns one) and a RequestError with
status code 500 whose error is e itself (the two reads) or fmt.Errorf around
e (the other four), so that errors.Is finds e. The body and the status code
returned next to e do not enter the result: nothing is decoded. -/
theorem transport_error_is_returned (c : Client) (log : List Call) (id : GoString) (e : GoError)
    (b : GoString) (s : Int)
    (enabled : Bool) (friendlyName url : GoString) (groupResubscribe delivered groupUnsubscribe
    spamReport bounce deferred unsubscribe processed open_ click dropped : Bool)
    (oauthClientID oauthClientSecret oauthTokenURL : GoString) (hurl : url ≠ "") :
    (c.roundTrip log (Call.Post "POST" "/user/webhooks/event/settings" (.eventWebhook
          ⟨enabled, "", friendlyName, url, groupResubscribe, delivered, groupUnsubscribe,
            spamReport, bounce, deferred, unsubscribe, processed, open_, click, dropped,
            oauthClientID, oauthClientSecret, oauthTokenURL⟩)) = ⟨b, s, some e⟩ →
        (CreateEventWebhook c log enabled friendlyName url groupResubscribe delivered
          groupUnsubscribe spamReport bounce deferred unsubscribe processed open_ click dropped
          oauthClientID oauthClientSecret oauthTokenURL).1
        = (none, { StatusCode := 500,
                   Err := some (.errorf "failed creating event webhook: " e "") }))
    ∧ (c.roundTrip log (Call.Post "PATCH" ("/user/webhooks/event/settings/" ++ id) (.eventWebhook
          ⟨enabled, "", friendlyName, url, groupResubscribe, delivered, groupUnsubscribe,
            spamReport, bounce, deferred, unsubscribe, processed, open_, click, dropped,
            oauthClientID, oauthClientSecret, oauthTokenURL⟩)) = ⟨b, s, some e⟩ →
        (UpdateEventWebhook c log id enabled friendlyName url groupResubscribe delivered
          groupUnsubscribe spamReport bounce deferred unsubscribe processed open_ click dropped
          oauthClientID oauthClientSecret oauthTokenURL).1
        = (none, { StatusCode := 500,
                   Err := some (.errorf "failed patching event webhook: " e "") }))
    ∧ (c.roundTrip log (Call.Get "GET" ("/user/webhooks/event/settings/" ++ id))
          = ⟨b, s, some e⟩ →
        (ReadEventWebhook c log id).1 = (none, { StatusCode := 500, Err := some e }))
    ∧ (c.roundTrip log (Call.Get "DELETE" ("/user/webhooks/event/settings/" ++ id))
          = ⟨b, s, some e⟩ →
        (DeleteEventWebhook c log id).1
        = { StatusCode := 500,
            Err := some (.errorf ("failed deleting event webhook " ++ id ++ ": ") e "") })
    ∧ (c.roundTrip log (Call.Post "PATCH" "/user/webhooks/event/settings/signed"
          (.eventWebhookSigning ⟨enabled, ""⟩)) = ⟨b, s, some e⟩ →
        (ConfigureEventWebhookSigning c log enabled).1
        = (none, { StatusCode := 500,
                   Err := some (.errorf "failed creating event webhook: " e "") }))
    ∧ (c.roundTrip log (Call.Get "GET" "/user/webhooks/event/settings/signed")
          = ⟨b, s, some e⟩ →
        (ReadEventWebhookSigning c log).1 = (none, { StatusCode := 500, Err := some e }))
    ∧ GoError.Is e e = true
    ∧ ∀ before after : GoString, GoError.Is (.errorf before e after) e = true := by
  refine ⟨?_, ?_, ?_, ?_, ?_, ?_, GoError.Is_self e, fun x y => GoError.Is_errorf x y e⟩
  · intro h
    simp only [CreateEventWebhook, Client.Post, if_neg hurl]
    simp [EventWebhook.zero, h, StatusInternalServerError]
  · intro h
    simp only [UpdateEventWebhook, Client.Post, if_neg hurl]
    simp [EventWebhook.zero, h, StatusInternalServerError]
  · intro h
    simp only [ReadEventWebhook, Client.Get]
    simp [h, StatusInternalServerError]
  · intro h
    simp only [DeleteEventWebhook, Client.Get]
    simp [h, StatusInternalServerError]
  · intro h
    simp only [ConfigureEventWebhookSigning, Client.Post]
    simp [EventWebhookSigning.zero, h, StatusInternalServerError]
  · intro h
    simp only [ReadEventWebhookSigning, Client.Get]
    simp [h, StatusInternalServerError]

/-- Witness of C3: a connection error returned together with a body that
would decode and a status code of 200. -/
theorem transport_error_is_returned_witness :
    (CreateEventWebhook
        (stubClient ⟨"\x7b\"enabled\":true\x7d", 200, some (.foreign "connection refused")⟩) []
        true "hook" "https://example.org/events" true true true true true true true true true
        true true "cid" "secret" "https://example.org/token").1
      = (none, { StatusCode := 500, Err := some (.errorf "failed creating event webhook: "
          (.foreign "connection refused") "") })
    ∧ (ReadEventWebhook
        (stubClient ⟨"\x7b\"enabled\":true\x7d", 200, some (.foreign "connection refused")⟩) []
        "wh_1").1
      = (none, { StatusCode := 500, Err := some (.foreign "connection refused") })
    ∧ (DeleteEventWebhook
        (stubClient ⟨"\x7b\"enabled\":true\x7d", 200, some (.foreign "connection refused")⟩) []
        "wh_1").1
      = { StatusCode := 500, Err := some (.errorf "failed deleting event webhook wh_1: "
          (.foreign "connection refused") "") } := by
  have h := transport_error_is_returned
    (stubClient ⟨"\x7b\"enabled\":true\x7d", 200, some (.foreign "connection refused")⟩) []
    "wh_1" (.foreign "connection refused") "\x7b\"enabled\":true\x7d" 200
    true "hook" "https://example.org/events" true true true true true true true true true
    true true "cid" "secret" "https://example.org/token" (by decide)
  exact ⟨h.1 rfl, h.2.2.1 rfl, h.2.2.2.1 rfl⟩

/-! ## The JSON form of the records -/

set_option maxRecDepth 100000 in
/-- C4, as stated, fails: the record whose ID is the single byte 0xff, which
is not valid UTF-8, is encoded by json.Marshal with the escape \ufffd in the
place of that byte, and parseEventWebhook gives back the record whose ID is
the three bytes of U+FFFD, not the record that was encoded. -/
theorem invalid_utf8_is_not_restored :
    marshalEventWebhook { EventWebhook.zero with ID := [byte 0xff] }
      = ("\x7b\"enabled\":false,\"id\":\"\\ufffd\",\"group_resubscribe\":false,"
        ++ "\"delivered\":false,\"group_unsubscribe\":false,\"spam_report\":false,"
        ++ "\"bounce\":false,\"deferred\":false,\"unsubscribe\":false,\"processed\":false,"
        ++ "\"open\":false,\"click\":false,\"dropped\":false\x7d" : String)
    ∧ parseEventWebhook (marshalEventWebhook { EventWebhook.zero with ID := [byte 0xff] })
      = (some { EventWebhook.zero with ID := [byte 0xEF, byte 0xBF, byte 0xBD] },
          { StatusCode := 200, Err := none })
    ∧ parseEventWebhook (marshalEventWebhook { EventWebhook.zero with ID := [byte 0xff] })
      ≠ (some { EventWebhook.zero with ID := [byte 0xff] },
          { StatusCode := 200, Err := none }) := by
  refine ⟨by rfl, by rfl, ?_⟩
  have h : parseEventWebhook (marshalEventWebhook { EventWebhook.zero with ID := [byte 0xff] })
      = (some { EventWebhook.zero with ID := [byte 0xEF, byte 0xBF, byte 0xBD] },
          { StatusCode := 200, Err := none }) := by rfl
  rw [h]
  decide

/-- C4, amended: JSON round trip. Encoding any EventWebhook as json.Marshal
does under the field tags of the struct, and handing the resulting text to
parseEventWebhook, succeeds with status code 200 and no error, and gives back
the record with each byte of its string fields that is not part of a valid
UTF-8 sequence replaced by the encoding of U+FFFD. When the six string fields
are valid UTF-8, that is the same record, field by field. -/
theorem marshal_then_parse_is_identity (w : EventWebhook) :
    parseEventWebhook (marshalEventWebhook w)
      = (some w.toValid, { StatusCode := 200, Err := none })
    ∧ (w.validStrings = true →
        parseEventWebhook (marshalEventWebhook w)
          = (some w, { StatusCode := 200, Err := none })) := by
  have h : parseEventWebhook (marshalEventWebhook w)
      = (some w.toValid, { StatusCode := 200, Err := none }) := by
    rw [parseEventWebhook_of_none _ (by rw [unmarshal_marshal]), unmarshal_marshal]
  refine ⟨h, fun hv => ?_⟩
  rw [h, toValid_of_validStrings w hv]

set_option maxRecDepth 100000 in
/-- Witness of C4: the text of the record with every flag set and every string
field non-empty, and its round trip. -/
theorem marshal_then_parse_is_identity_witness :
    marshalEventWebhook fullEventWebhook =
      ("\x7b\"enabled\":true,\"id\":\"wh_1\",\"friendly_name\":\"hook\","
        ++ "\"url\":\"https://example.org/events\",\"group_resubscribe\":true,"
        ++ "\"delivered\":true,\"group_unsubscribe\":true,\"spam_report\":true,"
        ++ "\"bounce\":true,\"deferred\":true,\"unsubscribe\":true,\"processed\":true,"
        ++ "\"open\":true,\"click\":true,\"dropped\":true,\"oauth_client_id\":\"cid\","
        ++ "\"oauth_client_secret\":\"s3cr3t\","
        ++ "\"oauth_token_url\":\"https://example.org/token\"\x7d" : String)
    ∧ fullEventWebhook.validStrings = true
    ∧ parseEventWebhook (marshalEventWebhook fullEventWebhook)
      = (some fullEventWebhook, { StatusCode := 200, Err := none }) :=
  ⟨by rfl, by rfl, (marshal_then_parse_is_identity fullEventWebhook).2 (by rfl)⟩

/-- C6, as stated, fails: the JSON object with the one member Friendly_Name
lacks the key friendly_name, and yet json.Unmarshal, which matches keys with
field names without regard to case, stores its value: the FriendlyName of the
record parseEventWebhook returns is x, not the empty string. -/
theorem capitalised_key_is_not_lacking :
    parseJson "\x7b\"Friendly_Name\":\"x\"\x7d"
      = some (Json.object [("Friendly_Name", Json.string "x")])
    ∧ "friendly_name" ∉ memberKeys [("Friendly_Name", Json.string "x")]
    ∧ (unmarshalEventWebhook "\x7b\"Friendly_Name\":\"x\"\x7d").1.FriendlyName = "x"
    ∧ (unmarshalEventWebhook "\x7b\"Friendly_Name\":\"x\"\x7d").1.FriendlyName ≠ ""
    ∧ parseEventWebhook "\x7b\"Friendly_Name\":\"x\"\x7d"
      = (some { EventWebhook.zero with FriendlyName := "x" },
          { StatusCode := 200, Err := none }) := by
  refine ⟨by rfl, by decide, by rfl, ?_, by rfl⟩
  have h : (unmarshalEventWebhook "\x7b\"Friendly_Name\":\"x\"\x7d").1.FriendlyName = "x" := by
    rfl
  rw [h]
  decide

/-- C6, amended: in the JSON object encoded from an EventWebhook, enabled and the
eleven event flags appear under their snake_case keys with their value, be it
true or false, and each of friendly_name, oauth_client_id, oauth_client_secret
and oauth_token_url (and url) is a key of the object if and only if the field
is not the empty string. Conversely, when json.Unmarshal decodes a JSON object
into a zero EventWebhook, each of these fields whose key the object lacks (no
key matches it, compared as the decoder does, without regard to case) is the
empty string afterwards; the record parseEventWebhook returns is that body,
and it does return it when every member of the object is accepted (its key
names no field, or a field that takes its value). -/
theorem flags_always_and_optional_strings_when_set (w : EventWebhook) :
    w.toJson = Json.object w.members
    ∧ (("enabled", Json.bool w.Enabled) ∈ w.members
      ∧ ("group_resubscribe", Json.bool w.GroupResubscribe) ∈ w.members
      ∧ ("delivered", Json.bool w.Delivered) ∈ w.members
      ∧ ("group_unsubscribe", Json.bool w.GroupUnsubscribe) ∈ w.members
      ∧ ("spam_report", Json.bool w.SpamReport) ∈ w.members
      ∧ ("bounce", Json.bool w.Bounce) ∈ w.members
      ∧ ("deferred", Json.bool w.Deferred) ∈ w.members
      ∧ ("unsubscribe", Json.bool w.Unsubscribe) ∈ w.members
      ∧ ("processed", Json.bool w.Processed) ∈ w.members
      ∧ ("open", Json.bool w.Open) ∈ w.members
      ∧ ("click", Json.bool w.Click) ∈ w.members
      ∧ ("dropped", Json.bool w.Dropped) ∈ w.members)
    ∧ (("friendly_name" ∈ memberKeys w.members ↔ w.FriendlyName ≠ "")
      ∧ ("oauth_client_id" ∈ memberKeys w.members ↔ w.OAuthClientID ≠ "")
      ∧ ("oauth_client_secret" ∈ memberKeys w.members ↔ w.OAuthClientSecret ≠ "")
      ∧ ("oauth_token_url" ∈ memberKeys w.members ↔ w.OAuthTokenURL ≠ "")
      ∧ ("url" ∈ memberKeys w.members ↔ w.URL ≠ ""))
    ∧ ∀ (data : GoString) (ms : List (String × Json)), parseJson data = some (Json.object ms) →
        ((∀ k ∈ memberKeys ms, foldName k ≠ "friendly_name") →
            (unmarshalEventWebhook data).1.FriendlyName = "")
        ∧ ((∀ k ∈ memberKeys ms, foldName k ≠ "oauth_client_id") →
            (unmarshalEventWebhook data).1.OAuthClientID = "")
        ∧ ((∀ k ∈ memberKeys ms, foldName k ≠ "oauth_client_secret") →
            (unmarshalEventWebhook data).1.OAuthClientSecret = "")
        ∧ ((∀ k ∈ memberKeys ms, foldName k ≠ "oauth_token_url") →
            (unmarshalEventWebhook data).1.OAuthTokenURL = "")
        ∧ ((∀ k ∈ memberKeys ms, foldName k ≠ "url") → (unmarshalEventWebhook data).1.URL = "")
        ∧ (∀ r e, parseEventWebhook data = (some r, e) → r = (unmarshalEventWebhook data).1)
        ∧ ((∀ kv ∈ ms, EventWebhook.accepts kv.1 kv.2 = true) →
            parseEventWebhook data
              = (some (unmarshalEventWebhook data).1, { StatusCode := 200, Err := none })) := by
  refine ⟨rfl, ?_, ?_, ?_⟩
  · simp [EventWebhook.members]
  · rw [memberKeys_members]
    simp [mem_memberKeys_omitEmpty]
  · intro data ms hp
    have hd : unmarshalEventWebhook data
        = decodeMembers EventWebhook.setField ms EventWebhook.zero := by
      simp only [unmarshalEventWebhook, hp, decodeStruct]
    have hk : ∀ n : String, (∀ k ∈ memberKeys ms, foldName k ≠ n) →
        ∀ kv ∈ ms, foldName kv.1 ≠ n :=
      fun n h kv hkv => h kv.1 (List.mem_map_of_mem Prod.fst hkv)
    refine ⟨?_, ?_, ?_, ?_, ?_, ?_, ?_⟩
    · exact fun h => by rw [hd, decodeMembers_keeps_FriendlyName ms _ (hk _ h)]; rfl
    · exact fun h => by rw [hd, decodeMembers_keeps_OAuthClientID ms _ (hk _ h)]; rfl
    · exact fun h => by rw [hd, decodeMembers_keeps_OAuthClientSecret ms _ (hk _ h)]; rfl
    · exact fun h => by rw [hd, decodeMembers_keeps_OAuthTokenURL ms _ (hk _ h)]; rfl
    · exact fun h => by rw [hd, decodeMembers_keeps_URL ms _ (hk _ h)]; rfl
    · intro r e h
      cases hu : (unmarshalEventWebhook data).2 with
      | none =>
        rw [parseEventWebhook_of_none data hu] at h
        simp only [Prod.mk.injEq, Option.some.injEq] at h
        exact h.1.symm
      | some je =>
        rw [parseEventWebhook_of_some data je hu] at h
        simp at h
    · intro h
      apply parseEventWebhook_of_none
      rw [hd]
      exact (decodeMembers_accepts ms EventWebhook.zero).1 (List.all_eq_true.mpr h)

/-- Witness of C6: a record with the optional fields empty encodes without
their keys, and decoding a text without them gives empty strings. -/
theorem flags_always_and_optional_strings_when_set_witness :
    memberKeys EventWebhook.zero.members
      = ["enabled", "id", "group_resubscribe", "delivered", "group_unsubscribe", "spam_report",
          "bounce", "deferred", "unsubscribe", "processed", "open", "click", "dropped"]
    ∧ "friendly_name" ∉ memberKeys EventWebhook.zero.members
    ∧ (unmarshalEventWebhook "\x7b\"enabled\":true,\"id\":\"wh_1\"\x7d").1.FriendlyName = ""
    ∧ parseEventWebhook "\x7b\"enabled\":true,\"id\":\"wh_1\"\x7d"
      = (some { EventWebhook.zero with Enabled := true, ID := "wh_1" },
          { StatusCode := 200, Err := none }) := by
  have h := flags_always_and_optional_strings_when_set EventWebhook.zero
  have h2 := h.2.2.2 "\x7b\"enabled\":true,\"id\":\"wh_1\"\x7d"
    [("enabled", Json.bool true), ("id", Json.string "wh_1")] rfl
  exact ⟨rfl, fun hm => (h.2.2.1.1.mp hm) rfl, h2.1 (by decide),
    (h2.2.2.2.2.2.2 (by decide)).trans (by rfl)⟩

/-! ## The wire contract -/

/-- C5: every operation that passes the local validation issues exactly one
transport call, with the method and the path of the wire contract; the path
of the three operations on one webhook is the fixed text
/user/webhooks/event/settings/ followed by the id as given. -/
theorem one_call_with_verb_and_path (c : Client) (log : List Call) (id : GoString)
    (enabled : Bool) (friendlyName url : GoString) (groupResubscribe delivered groupUnsubscribe
    spamReport bounce deferred unsubscribe processed open_ click dropped : Bool)
    (oauthClientID oauthClientSecret oauthTokenURL : GoString) (hurl : url ≠ "") :
    (CreateEventWebhook c log enabled friendlyName url groupResubscribe delivered
        groupUnsubscribe spamReport bounce deferred unsubscribe processed open_ click dropped
        oauthClientID oauthClientSecret oauthTokenURL).2
      = log ++ [Call.Post "POST" "/user/webhooks/event/settings" (.eventWebhook
          ⟨enabled, "", friendlyName, url, groupResubscribe, delivered, groupUnsubscribe,
            spamReport, bounce, deferred, unsubscribe, processed, open_, click, dropped,
            oauthClientID, oauthClientSecret, oauthTokenURL⟩)]
    ∧ (UpdateEventWebhook c log id enabled friendlyName url groupResubscribe delivered
        groupUnsubscribe spamReport bounce deferred unsubscribe processed open_ click dropped
        oauthClientID oauthClientSecret oauthTokenURL).2
      = log ++ [Call.Post "PATCH" ("/user/webhooks/event/settings/" ++ id) (.eventWebhook
          ⟨enabled, "", friendlyName, url, groupResubscribe, delivered, groupUnsubscribe,
            spamReport, bounce, deferred, unsubscribe, processed, open_, click, dropped,
            oauthClientID, oauthClientSecret, oauthTokenURL⟩)]
    ∧ (ReadEventWebhook c log id).2
      = log ++ [Call.Get "GET" ("/user/webhooks/event/settings/" ++ id)]
    ∧ (DeleteEventWebhook c log id).2
      = log ++ [Call.Get "DELETE" ("/user/webhooks/event/settings/" ++ id)]
    ∧ (ConfigureEventWebhookSigning c log enabled).2
      = log ++ [Call.Post "PATCH" "/user/webhooks/event/settings/signed"
          (.eventWebhookSigning ⟨enabled, ""⟩)]
    ∧ (ReadEventWebhookSigning c log).2
      = log ++ [Call.Get "GET" "/user/webhooks/event/settings/signed"] := by
  refine ⟨?_, ?_, ?_, ?_, ?_, ?_⟩
  · simp only [CreateEventWebhook, Client.Post, if_neg hurl]
    split
    · rfl
    · split <;> rfl
  · simp only [UpdateEventWebhook, Client.Post, if_neg hurl]
    split
    · rfl
    · split <;> rfl
  · simp only [ReadEventWebhook, Client.Get]
    split <;> rfl
  · simp only [DeleteEventWebhook, Client.Get]
    split
    · rfl
    · split <;> rfl
  · simp only [ConfigureEventWebhookSigning, Client.Post]
    split
    · rfl
    · split <;> rfl
  · simp only [ReadEventWebhookSigning, Client.Get]
    split <;> rfl

/-- Witness of C5: the calls of an update and of a delete of the webhook wh_1
on a fresh client. -/
theorem one_call_with_verb_and_path_witness :
    (UpdateEventWebhook (stubClient ⟨"", 204, none⟩) [] "wh_1" true "hook"
        "https://example.org/events" false true false true false true false true false true
        false "" "" "").2
      = [Call.Post "PATCH" "/user/webhooks/event/settings/wh_1" (.eventWebhook
          ⟨true, "", "hook", "https://example.org/events", false, true, false, true, false,
            true, false, true, false, true, false, "", "", ""⟩)]
    ∧ (DeleteEventWebhook (stubClient ⟨"", 204, none⟩) [] "wh_1").2
      = [Call.Get "DELETE" "/user/webhooks/event/settings/wh_1"] := by
  have h := one_call_with_verb_and_path (stubClient ⟨"", 204, none⟩) [] "wh_1" true "hook"
    "https://example.org/events" false true false true false true false true false true
    false "" "" "" (by decide)
  exact ⟨h.2.1, h.2.2.2.1⟩

/-- C7, as stated, fails: the request body of ConfigureEventWebhookSigning true
is the record with Enabled true and PublicKey empty, and its JSON object has
the two keys enabled and public_key, not the key enabled alone. -/
theorem signing_body_is_not_enabled_alone :
    (ConfigureEventWebhookSigning (stubClient ⟨"", 200, none⟩) [] true).2
      = [Call.Post "PATCH" "/user/webhooks/event/settings/signed"
          (.eventWebhookSigning ⟨true, ""⟩)]
    ∧ (Payload.eventWebhookSigning ⟨true, ""⟩).toJson
      = Json.object [("enabled", Json.bool true), ("public_key", Json.string "")]
    ∧ (Payload.eventWebhookSigning ⟨true, ""⟩).toJson
      ≠ Json.object [("enabled", Json.bool true)]
    ∧ marshalEventWebhookSigning ⟨true, ""⟩ = "\x7b\"enabled\":true,\"public_key\":\"\"\x7d" := by
  refine ⟨rfl, rfl, ?_, rfl⟩
  simp [Payload.toJson, EventWebhookSigning.toJson]

/-- C7, amended: for every boolean enabled, the request body that
ConfigureEventWebhookSigning hands to the transport is the record with that
Enabled and an empty PublicKey, and it encodes to the JSON object with exactly
two members, enabled with the given value and public_key with the empty
string. -/
theorem signing_body_is_enabled_and_empty_public_key (c : Client) (log : List Call)
    (enabled : Bool) :
    (ConfigureEventWebhookSigning c log enabled).2
      = log ++ [Call.Post "PATCH" "/user/webhooks/event/settings/signed"
          (.eventWebhookSigning ⟨enabled, ""⟩)]
    ∧ (Payload.eventWebhookSigning ⟨enabled, ""⟩).toJson
      = Json.object [("enabled", Json.bool enabled), ("public_key", Json.string "")]
    ∧ marshalEventWebhookSigning ⟨enabled, ""⟩
      = (if enabled then "\x7b\"enabled\":true,\"public_key\":\"\"\x7d"
         else "\x7b\"enabled\":false,\"public_key\":\"\"\x7d") := by
  refine ⟨?_, rfl, ?_⟩
  · simp only [ConfigureEventWebhookSigning, Client.Post]
    split
    · rfl
    · split <;> rfl
  · cases enabled <;> rfl

/-! ## Decoding the response -/

/-- C8, as stated, fails: on the success path with the body null, which is a
JSON text but not a JSON object, ConfigureEventWebhookSigning returns a record
(the zero record) with status code 200 and no error, not a decode error. -/
theorem null_body_is_decoded_without_error :
    parseJson "null" = some Json.null
    ∧ (ConfigureEventWebhookSigning (stubClient ⟨"null", 200, none⟩) [] true).1
      = (some { Enabled := false, PublicKey := "" }, { StatusCode := 200, Err := none }) := by
  constructor <;> rfl

/-- C8, amended: on the success path (no transport error, status code below
300, body b) ConfigureEventWebhookSigning, and CreateEventWebhook and
UpdateEventWebhook with a non-empty url, return exactly what decoding b gives.
If b is a JSON text whose value is null or an object each of whose members is
accepted by the record (its key names no field, or names a field that takes
its value: a boolean for a bool field, a string for a string field, or null),
that is the decoded record with status code 200 and no error; otherwise it is
no record with status code 500 and the error of json.Unmarshal wrapped by
fmt.Errorf. -/
theorem success_path_returns_decoded_body (c : Client) (log : List Call) (id : GoString)
    (b : GoString) (s : Int) (hs : s < 300)
    (enabled : Bool) (friendlyName url : GoString) (groupResubscribe delivered groupUnsubscribe
    spamReport bounce deferred unsubscribe processed open_ click dropped : Bool)
    (oauthClientID oauthClientSecret oauthTokenURL : GoString) (hurl : url ≠ "") :
    (c.roundTrip log (Call.Post "PATCH" "/user/webhooks/event/settings/signed"
          (.eventWebhookSigning ⟨enabled, ""⟩)) = ⟨b, s, none⟩ →
        (ConfigureEventWebhookSigning c log enabled).1 = parseEventWebhookSigning b)
    ∧ (c.roundTrip log (Call.Post "POST" "/user/webhooks/event/settings" (.eventWebhook
          ⟨enabled, "", friendlyName, url, groupResubscribe, delivered, groupUnsubscribe,
            spamReport, bounce, deferred, unsubscribe, processed, open_, click, dropped,
            oauthClientID, oauthClientSecret, oauthTokenURL⟩)) = ⟨b, s, none⟩ →
        (CreateEventWebhook c log enabled friendlyName url groupResubscribe delivered
          groupUnsubscribe spamReport bounce deferred unsubscribe processed open_ click dropped
          oauthClientID oauthClientSecret oauthTokenURL).1 = parseEventWebhook b)
    ∧ (c.roundTrip log (Call.Post "PATCH" ("/user/webhooks/event/settings/" ++ id) (.eventWebhook
          ⟨enabled, "", friendlyName, url, groupResubscribe, delivered, groupUnsubscribe,
            spamReport, bounce, deferred, unsubscribe, processed, open_, click, dropped,
            oauthClientID, oauthClientSecret, oauthTokenURL⟩)) = ⟨b, s, none⟩ →
        (UpdateEventWebhook c log id enabled friendlyName url groupResubscribe delivered
          groupUnsubscribe spamReport bounce deferred unsubscribe processed open_ click dropped
          oauthClientID oauthClientSecret oauthTokenURL).1 = parseEventWebhook b)
    ∧ (decodable EventWebhookSigning.accepts b = true →
        (unmarshalEventWebhookSigning b).2 = none
        ∧ parseEventWebhookSigning b
          = (some (unmarshalEventWebhookSigning b).1, { StatusCode := 200, Err := none }))
    ∧ (decodable EventWebhookSigning.accepts b = false →
        ∃ e, (unmarshalEventWebhookSigning b).2 = some e
          ∧ parseEventWebhookSigning b = (none,
            { StatusCode := 500,
              Err := some (.errorf "failed parsing event webhook: " (.json e) "") }))
    ∧ (decodable EventWebhook.accepts b = true →
        (unmarshalEventWebhook b).2 = none
        ∧ parseEventWebhook b
          = (some (unmarshalEventWebhook b).1, { StatusCode := 200, Err := none }))
    ∧ (decodable EventWebhook.accepts b = false →
        ∃ e, (unmarshalEventWebhook b).2 = some e
          ∧ parseEventWebhook b = (none,
            { StatusCode := 500,
              Err := some (.errorf "failed parsing event webhook: " (.json e) "") })) := by
  have hs2 : ¬ (s ≥ StatusMultipleChoices) := by
    simp only [StatusMultipleChoices]; omega
  refine ⟨?_, ?_, ?_, ?_, ?_, ?_, ?_⟩
  · intro h
    simp only [ConfigureEventWebhookSigning, Client.Post]
    simp [EventWebhookSigning.zero, h, hs2]
  · intro h
    simp only [CreateEventWebhook, Client.Post, if_neg hurl]
    simp [EventWebhook.zero, h, hs2]
  · intro h
    simp only [UpdateEventWebhook, Client.Post, if_neg hurl]
    simp [EventWebhook.zero, h, hs2]
  · intro h
    have hn := (unmarshalEventWebhookSigning_decodable b).1 h
    exact ⟨hn, parseEventWebhookSigning_of_none b hn⟩
  · intro h
    obtain ⟨e, he⟩ := (unmarshalEventWebhookSigning_decodable b).2 h
    exact ⟨e, he, parseEventWebhookSigning_of_some b e he⟩
  · intro h
    have hn := (unmarshalEventWebhook_decodable b).1 h
    exact ⟨hn, parseEventWebhook_of_none b hn⟩
  · intro h
    obtain ⟨e, he⟩ := (unmarshalEventWebhook_decodable b).2 h
    exact ⟨e, he, parseEventWebhook_of_some b e he⟩

/-- Witness of C8: ConfigureEventWebhookSigning true against a stub answering
status 200 with the body of the scenario returns the record with Enabled true
and PublicKey PK123, and no error; a body that is not JSON gives a decode
error with status code 500. -/
theorem success_path_returns_decoded_body_witness :
    (ConfigureEventWebhookSigning
        (stubClient ⟨"\x7b\"enabled\":true,\"public_key\":\"PK123\"\x7d", 200, none⟩) [] true).1
      = (some { Enabled := true, PublicKey := "PK123" }, { StatusCode := 200, Err := none })
    ∧ decodable EventWebhookSigning.accepts "\x7b\"enabled\":true,\"public_key\":\"PK123\"\x7d"
      = true
    ∧ decodable EventWebhookSigning.accepts "\x7b\"enabled\":\"yes\"\x7d" = false
    ∧ parseEventWebhookSigning "\x7b\"enabled\":\"yes\"\x7d"
      = (none, { StatusCode := 500,
                 Err := some (.errorf "failed parsing event webhook: "
                   (.json (.UnmarshalTypeError "string" "enabled")) "") }) := by
  have h := success_path_returns_decoded_body
    (stubClient ⟨"\x7b\"enabled\":true,\"public_key\":\"PK123\"\x7d", 200, none⟩) [] "wh_1"
    "\x7b\"enabled\":true,\"public_key\":\"PK123\"\x7d" 200 (by decide)
    true "hook" "https://example.org/events" true true true true true true true true true
    true true "cid" "secret" "https://example.org/token" (by decide)
  exact ⟨(h.1 rfl).trans (by rfl), by rfl, by rfl, by rfl⟩

/-- C9: ReadEventWebhook and ReadEventWebhookSigning do not look at the status
code. When the transport answers without error with a status code s and a
body b, the result is parseEventWebhook b (parseEventWebhookSigning b) for
every s, also for s of 300 and more. Whatever the transport answers, the
result is a record with status code 200 and no error, or no record with
status code 500 and either the error of the transport or the wrapped error of
json.Unmarshal: the status code of the server is never the one reported. -/
theorem reads_decode_whatever_the_status (c : Client) (log : List Call) (id : GoString) :
    (∀ (b : GoString) (s : Int),
        c.roundTrip log (Call.Get "GET" ("/user/webhooks/event/settings/" ++ id))
          = ⟨b, s, none⟩ →
        (ReadEventWebhook c log id).1 = parseEventWebhook b)
    ∧ (∀ (b : GoString) (s : Int),
        c.roundTrip log (Call.Get "GET" "/user/webhooks/event/settings/signed")
          = ⟨b, s, none⟩ →
        (ReadEventWebhookSigning c log).1 = parseEventWebhookSigning b)
    ∧ ((∃ r, (ReadEventWebhook c log id).1 = (some r, { StatusCode := 200, Err := none }))
      ∨ (∃ e, (c.roundTrip log
            (Call.Get "GET" ("/user/webhooks/event/settings/" ++ id))).err = some e
          ∧ (ReadEventWebhook c log id).1 = (none, { StatusCode := 500, Err := some e }))
      ∨ (∃ e, (ReadEventWebhook c log id).1 = (none,
            { StatusCode := 500,
              Err := some (.errorf "failed parsing event webhook: " (.json e) "") })))
    ∧ ((∃ r, (ReadEventWebhookSigning c log).1
            = (some r, { StatusCode := 200, Err := none }))
      ∨ (∃ e, (c.roundTrip log
            (Call.Get "GET" "/user/webhooks/event/settings/signed")).err = some e
          ∧ (ReadEventWebhookSigning c log).1 = (none, { StatusCode := 500, Err := some e }))
      ∨ (∃ e, (ReadEventWebhookSigning c log).1 = (none,
            { StatusCode := 500,
              Err := some (.errorf "failed parsing event webhook: " (.json e) "") }))) := by
  refine ⟨?_, ?_, ?_, ?_⟩
  · intro b s h
    simp only [ReadEventWebhook, Client.Get]
    simp [h]
  · intro b s h
    simp only [ReadEventWebhookSigning, Client.Get]
    simp [h]
  · simp only [ReadEventWebhook, Client.Get]
    cases he : (c.roundTrip log (Call.Get "GET" ("/user/webhooks/event/settings/" ++ id))).err with
    | some e => exact Or.inr (Or.inl ⟨e, rfl, rfl⟩)
    | none =>
      rcases parseEventWebhook_cases
        (c.roundTrip log (Call.Get "GET" ("/user/webhooks/event/settings/" ++ id))).respBody
        with ⟨r, hr⟩ | ⟨e, hr⟩
      · exact Or.inl ⟨r, hr⟩
      · exact Or.inr (Or.inr ⟨e, hr⟩)
  · simp only [ReadEventWebhookSigning, Client.Get]
    cases he : (c.roundTrip log (Call.Get "GET" "/user/webhooks/event/settings/signed")).err with
    | some e => exact Or.inr (Or.inl ⟨e, rfl, rfl⟩)
    | none =>
      rcases parseEventWebhookSigning_cases
        (c.roundTrip log (Call.Get "GET" "/user/webhooks/event/settings/signed")).respBody
        with ⟨r, hr⟩ | ⟨e, hr⟩
      · exact Or.inl ⟨r, hr⟩
      · exact Or.inr (Or.inr ⟨e, hr⟩)

/-- Witness of C9: an HTML error page with status 503 is reported as a decode
error with status code 500, and a signing record sent with status 404 is
returned as a success. -/
theorem reads_decode_whatever_the_status_witness :
    (ReadEventWebhook (stubClient ⟨"<html>busy</html>", 503, none⟩) [] "wh_1").1
      = (none, { StatusCode := 500,
                 Err := some (.errorf "failed parsing event webhook: "
                   (.json .SyntaxError) "") })
    ∧ (ReadEventWebhookSigning
        (stubClient ⟨"\x7b\"enabled\":false,\"public_key\":\"PK123\"\x7d", 404, none⟩) []).1
      = (some { Enabled := false, PublicKey := "PK123" }, { StatusCode := 200, Err := none }) := by
  constructor
  · exact ((reads_decode_whatever_the_status (stubClient ⟨"<html>busy</html>", 503, none⟩) []
      "wh_1").1 "<html>busy</html>" 503 rfl).trans (by rfl)
  · exact ((reads_decode_whatever_the_status
      (stubClient ⟨"\x7b\"enabled\":false,\"public_key\":\"PK123\"\x7d", 404, none⟩) []
      "wh_1").2.1 "\x7b\"enabled\":false,\"public_key\":\"PK123\"\x7d" 404 rfl).trans (by rfl)

/-- C10, as stated, fails: none of the keys of the object with the one member
ENABLED is the json name of a field of EventWebhook, and yet json.Unmarshal,
which matches keys with field names without regard to case, stores its value:
ReadEventWebhook returns the record with Enabled true, not the zero record. -/
theorem upper_case_key_is_decoded :
    parseJson "\x7b\"ENABLED\":true\x7d" = some (Json.object [("ENABLED", Json.bool true)])
    ∧ (∀ k ∈ memberKeys [("ENABLED", Json.bool true)], k ∉ EventWebhook.fieldNames)
    ∧ (ReadEventWebhook (stubClient ⟨"\x7b\"ENABLED\":true\x7d", 404, none⟩) [] "wh_1").1
      = (some { EventWebhook.zero with Enabled := true }, { StatusCode := 200, Err := none })
    ∧ (ReadEventWebhook (stubClient ⟨"\x7b\"ENABLED\":true\x7d", 404, none⟩) [] "wh_1").1
      ≠ (some EventWebhook.zero, { StatusCode := 200, Err := none }) := by
  refine ⟨by rfl, by decide, by rfl, ?_⟩
  have h : (ReadEventWebhook (stubClient ⟨"\x7b\"ENABLED\":true\x7d", 404, none⟩) [] "wh_1").1
      = (some { EventWebhook.zero with Enabled := true }, { StatusCode := 200, Err := none }) := by
    rfl
  rw [h]
  decide

/-- C10, amended: when the transport answers without error, with any status code, a
body that is a JSON object none of whose keys names a field of EventWebhook
(compared as the decoder does, without regard to case), ReadEventWebhook
reports success: it returns the record with every field at its zero value,
status code 200 and no error. -/
theorem read_of_foreign_object_is_zero_record (c : Client) (log : List Call) (id : GoString)
    (b : GoString) (s : Int) (ms : List (String × Json))
    (hr : c.roundTrip log (Call.Get "GET" ("/user/webhooks/event/settings/" ++ id))
      = ⟨b, s, none⟩)
    (hb : parseJson b = some (Json.object ms))
    (hk : ∀ k ∈ memberKeys ms, foldName k ∉ EventWebhook.fieldNames) :
    (ReadEventWebhook c log id).1
      = (some EventWebhook.zero, { StatusCode := 200, Err := none }) := by
  have hd : decodeMembers EventWebhook.setField ms EventWebhook.zero
      = (EventWebhook.zero, none) :=
    decodeMembers_of_no_field ms _ (fun kv hkv => hk kv.1 (List.mem_map_of_mem Prod.fst hkv))
  have hu : unmarshalEventWebhook b = (EventWebhook.zero, none) := by
    simp only [unmarshalEventWebhook, hb, decodeStruct, hd]
  simp only [ReadEventWebhook, Client.Get, hr]
  rw [parseEventWebhook_of_none b (by rw [hu]), hu]

/-- Witness of C10: status 404 with an errors object as body. -/
theorem read_of_foreign_object_is_zero_record_witness :
    (ReadEventWebhook
        (stubClient ⟨"\x7b\"errors\":[\x7b\"field\":null,\"message\":\"not found\"\x7d]\x7d",
          404, none⟩) [] "missing_id").1
      = (some EventWebhook.zero, { StatusCode := 200, Err := none }) :=
  read_of_foreign_object_is_zero_record
    (stubClient ⟨"\x7b\"errors\":[\x7b\"field\":null,\"message\":\"not found\"\x7d]\x7d",
      404, none⟩) [] "missing_id"
    "\x7b\"errors\":[\x7b\"field\":null,\"message\":\"not found\"\x7d]\x7d" 404
    [("errors", Json.array [Json.object [("field", Json.null),
      ("message", Json.string "not found")]])]
    rfl rfl (by decide)

end Sendgrid
